import Mathlib

/-!
# Verification of the siertrichain consensus core

A shallow embedding, in Lean 4, of the consensus core of the siertrichain
repository (Rust): geometry (`src/geometry.rs`), transactions
(`src/transaction.rs`) and the blockchain / mempool (`src/blockchain.rs`).

Modelling conventions, fixed once here:

* Machine integers (`u64`) are `Nat`; reductions modulo `2 ^ 64` and the
  saturating operations are written out explicitly where the Rust code
  overflows or saturates.  `i64` timestamps are `Int`.
* Byte strings (`[u8; 32]`, `Vec<u8>`, Rust `String` contents) are
  `List Nat`, each element a byte.  Rust string literals appear as their
  ASCII byte lists.
* `f64` coordinates are modelled as `ℚ`.  Every concrete coordinate used by
  the theorems below is a decimal with at most fifteen fractional digits
  whose `f64` image is within half an ulp of the decimal, so the Rust
  `{:.15}` rendering of the `f64` equals the exact decimal rendering of the
  rational and the two models agree byte-for-byte on those inputs.
* SHA-256 is implemented in full (FIPS 180-4) over byte lists and is
  executable by kernel reduction; test vectors are proved below.
* `secp256k1` signature verification lives outside the repository; it is an
  explicit parameter `verify : SigVerify` threaded through every function
  that calls it (the `Result<bool, CryptoError>` of the Rust API is
  abstracted to `Bool`; no theorem below depends on the malformed-key error
  path).
* `HashMap` is an association list whose iteration order is insertion
  order; every theorem below is insensitive to the iteration order except
  where explicitly discussed.
* `Utc::now()` is an explicit `now : Int` argument.
* Error messages carried by `ChainError` variants are elided: the variants
  keep their tags only.
-/

namespace Siertri

/-- Byte strings: each element is one byte. -/
abbrev Bytes := List Nat

/-- Little-endian 8-byte rendering of a `u64` (`u64::to_le_bytes`). -/
def leBytes8 (n : Nat) : Bytes :=
  [n % 256, n / 256 % 256, n / 256 ^ 2 % 256, n / 256 ^ 3 % 256,
   n / 256 ^ 4 % 256, n / 256 ^ 5 % 256, n / 256 ^ 6 % 256, n / 256 ^ 7 % 256]

/-- Little-endian 8-byte rendering of an `i64` (two's complement,
`i64::to_le_bytes`). -/
def leBytes8Int (i : Int) : Bytes :=
  leBytes8 (i % (2 ^ 64 : Int)).toNat

/-! ## SHA-256 (FIPS 180-4), executable over byte lists -/

/-- 32-bit truncation. -/
def m32 (n : Nat) : Nat := n % 2 ^ 32

/-- 32-bit right rotation. -/
def rotr (k n : Nat) : Nat := m32 ((n >>> k) ||| (n <<< (32 - k)))

/-- The 64 SHA-256 round constants. -/
def shaK : List Nat :=
  [1116352408, 1899447441, 3049323471, 3921009573, 961987163, 1508970993,
   2453635748, 2870763221, 3624381080, 310598401, 607225278, 1426881987,
   1925078388, 2162078206, 2614888103, 3248222580, 3835390401, 4022224774,
   264347078, 604807628, 770255983, 1249150122, 1555081692, 1996064986,
   2554220882, 2821834349, 2952996808, 3210313671, 3336571891, 3584528711,
   113926993, 338241895, 666307205, 773529912, 1294757372, 1396182291,
   1695183700, 1986661051, 2177026350, 2456956037, 2730485921, 2820302411,
   3259730800, 3345764771, 3516065817, 3600352804, 4094571909, 275423344,
   430227734, 506948616, 659060556, 883997877, 958139571, 1322822218,
   1537002063, 1747873779, 1955562222, 2024104815, 2227730452, 2361852424,
   2428436474, 2756734187, 3204031479, 3329325298]

/-- SHA-256 message padding: append `0x80`, zero bytes, and the 64-bit
big-endian bit length. -/
def shaPad (msg : Bytes) : Bytes :=
  let lenBits := 8 * msg.length
  let zeros := (56 + 64 - (msg.length + 1) % 64) % 64
  msg ++ [0x80] ++ List.replicate zeros 0 ++
    [lenBits / 256 ^ 7 % 256, lenBits / 256 ^ 6 % 256, lenBits / 256 ^ 5 % 256,
     lenBits / 256 ^ 4 % 256, lenBits / 256 ^ 3 % 256, lenBits / 256 ^ 2 % 256,
     lenBits / 256 % 256, lenBits % 256]

/-- Pack a byte list into big-endian 32-bit words (4 bytes per word). -/
def packWords : Bytes → List Nat
  | b0 :: b1 :: b2 :: b3 :: rest =>
      (b0 <<< 24 ||| b1 <<< 16 ||| b2 <<< 8 ||| b3) :: packWords rest
  | _ => []

/-- One step of the SHA-256 message-schedule extension.  `wrev` holds the
schedule so far, most recent word first. -/
def schedStep (wrev : List Nat) : Nat :=
  let w2 := wrev.getD 1 0
  let w7 := wrev.getD 6 0
  let w15 := wrev.getD 14 0
  let w16 := wrev.getD 15 0
  let s0 := rotr 7 w15 ^^^ rotr 18 w15 ^^^ (w15 >>> 3)
  let s1 := rotr 17 w2 ^^^ rotr 19 w2 ^^^ (w2 >>> 10)
  m32 (w16 + s0 + w7 + s1)

/-- Extend the (reversed) schedule by `n` words. -/
def schedExtend : Nat → List Nat → List Nat
  | 0, wrev => wrev
  | n + 1, wrev => schedExtend n (schedStep wrev :: wrev)

/-- The eight-word SHA-256 working state. -/
structure ShaState where
  a : Nat
  b : Nat
  c : Nat
  d : Nat
  e : Nat
  f : Nat
  g : Nat
  h : Nat
  deriving DecidableEq

/-- One SHA-256 compression round. -/
def shaRound (st : ShaState) (kw : Nat × Nat) : ShaState :=
  let s1 := rotr 6 st.e ^^^ rotr 11 st.e ^^^ rotr 25 st.e
  let ch := (st.e &&& st.f) ^^^ ((st.e ^^^ 0xffffffff) &&& st.g)
  let t1 := m32 (st.h + s1 + ch + kw.1 + kw.2)
  let s0 := rotr 2 st.a ^^^ rotr 13 st.a ^^^ rotr 22 st.a
  let mj := (st.a &&& st.b) ^^^ (st.a &&& st.c) ^^^ (st.b &&& st.c)
  let t2 := m32 (s0 + mj)
  ⟨m32 (t1 + t2), st.a, st.b, st.c, m32 (st.d + t1), st.e, st.f, st.g⟩

/-- Compress one 16-word block into the running eight-word digest. -/
def shaCompress (hs : List Nat) (blockWords : List Nat) : List Nat :=
  let w := (schedExtend 48 blockWords.reverse).reverse
  let st0 : ShaState :=
    ⟨hs.getD 0 0, hs.getD 1 0, hs.getD 2 0, hs.getD 3 0,
     hs.getD 4 0, hs.getD 5 0, hs.getD 6 0, hs.getD 7 0⟩
  let st := (shaK.zip w).foldl shaRound st0
  [m32 (hs.getD 0 0 + st.a), m32 (hs.getD 1 0 + st.b),
   m32 (hs.getD 2 0 + st.c), m32 (hs.getD 3 0 + st.d),
   m32 (hs.getD 4 0 + st.e), m32 (hs.getD 5 0 + st.f),
   m32 (hs.getD 6 0 + st.g), m32 (hs.getD 7 0 + st.h)]

/-- Split a word list into 16-word blocks (the padded message length is a
multiple of 16 words, so the final catch-all arm is never reached on padded
input). -/
def chunk16 : List Nat → List (List Nat)
  | w0 :: w1 :: w2 :: w3 :: w4 :: w5 :: w6 :: w7 ::
    w8 :: w9 :: w10 :: w11 :: w12 :: w13 :: w14 :: w15 :: rest =>
      [w0, w1, w2, w3, w4, w5, w6, w7, w8, w9, w10, w11, w12, w13, w14, w15] ::
        chunk16 rest
  | _ => []

/-- Fold the compression function over the padded message, 16 words at a
time. -/
def shaBlocks (hs : List Nat) (ws : List Nat) : List Nat :=
  (chunk16 ws).foldl shaCompress hs

/-- SHA-256 of a byte list; the 32-byte digest. -/
def sha256 (msg : Bytes) : Bytes :=
  let init : List Nat :=
    [0x6a09e667, 0xbb67ae85, 0x3c6ef372, 0xa54ff53a,
     0x510e527f, 0x9b05688c, 0x1f83d9ab, 0x5be0cd19]
  let hs := shaBlocks init (packWords (shaPad msg))
  hs.flatMap (fun w => [w / 256 ^ 3 % 256, w / 256 ^ 2 % 256, w / 256 % 256, w % 256])

/-- Lowercase hex rendering of a byte list, as ASCII bytes
(`hex::encode` / Rust `{:x}` on a digest). -/
def hexEncode (bs : Bytes) : Bytes :=
  bs.flatMap (fun b =>
    let dig := fun n => if n < 10 then 48 + n else 87 + n
    [dig (b / 16), dig (b % 16)])

/-- FIPS 180-4 test vector: SHA-256 of the empty message. -/
theorem sha256_empty_vector :
    sha256 [] =
      [0xe3, 0xb0, 0xc4, 0x42, 0x98, 0xfc, 0x1c, 0x14, 0x9a, 0xfb, 0xf4, 0xc8,
       0x99, 0x6f, 0xb9, 0x24, 0x27, 0xae, 0x41, 0xe4, 0x64, 0x9b, 0x93, 0x4c,
       0xa4, 0x95, 0x99, 0x1b, 0x78, 0x52, 0xb8, 0x55] := by
  decide

/-- FIPS 180-4 test vector: SHA-256 of the ASCII bytes of the three
characters a, b, c. -/
theorem sha256_abc_vector :
    sha256 [97, 98, 99] =
      [0xba, 0x78, 0x16, 0xbf, 0x8f, 0x01, 0xcf, 0xea, 0x41, 0x41, 0x40, 0xde,
       0x5d, 0xae, 0x22, 0x23, 0xb0, 0x03, 0x61, 0xa3, 0x96, 0x17, 0x7a, 0x9c,
       0xb4, 0x10, 0xff, 0x61, 0xf2, 0x00, 0x15, 0xad] := by
  decide

/-! ## Decimal rendering of coordinates

`src/geometry.rs` hashes a point by formatting its two `f64` coordinates
with `{:.15}` (fifteen fractional digits, correctly rounded) and hashing
the ASCII bytes.  Coordinates are modelled as `ℚ`; `fmt15` renders a
rational to the same ASCII bytes.  On every coordinate appearing in the
theorems below the rational is a decimal of at most fifteen fractional
digits that agrees with its `f64` image to within half an ulp, so both
renderings coincide. -/

/-- Decimal digits of a `Nat`, most significant first, as ASCII bytes.
The first argument is fuel; `natDigits` supplies enough. -/
def natDigitsAux : Nat → Nat → Bytes → Bytes
  | 0, _, acc => acc
  | fuel + 1, n, acc =>
      if n = 0 then acc else natDigitsAux fuel (n / 10) ((48 + n % 10) :: acc)

/-- Decimal ASCII rendering of a `Nat`. -/
def natDigits (n : Nat) : Bytes :=
  if n = 0 then [48] else natDigitsAux 40 n []

/-!
The `Rat` arithmetic of Batteries (`Rat.add`, `Rat.mul`, `Rat.inv`) is
`@[irreducible]`, so it cannot be evaluated by `decide`.  The embedding
therefore computes on `ℚ` through the reducible constructors `mkRat` /
`Rat.divInt`; the wrappers below are proved equal to the standard
operations, so the ordinary algebra of `ℚ` remains available in proofs. -/

/-- Kernel-reducible addition on `ℚ`. -/
def qadd (a b : ℚ) : ℚ := mkRat (a.num * b.den + b.num * a.den) (a.den * b.den)

/-- Kernel-reducible subtraction on `ℚ`. -/
def qsub (a b : ℚ) : ℚ := mkRat (a.num * b.den - b.num * a.den) (a.den * b.den)

/-- Kernel-reducible multiplication on `ℚ`. -/
def qmul (a b : ℚ) : ℚ := mkRat (a.num * b.num) (a.den * b.den)

/-- Kernel-reducible halving on `ℚ` (division by the literal 2). -/
def qhalf (q : ℚ) : ℚ := mkRat q.num (q.den * 2)

/-- Kernel-reducible embedding of `Nat` into `ℚ`. -/
def qofNat (n : Nat) : ℚ := mkRat n 1

/-- Kernel-reducible embedding of `Int` into `ℚ`. -/
def qofInt (i : Int) : ℚ := mkRat i 1

theorem qadd_eq (a b : ℚ) : qadd a b = a + b := by
  unfold qadd
  rw [Rat.mkRat_eq_div, Rat.add_def]
  rw [Rat.normalize_eq_mkRat, Rat.mkRat_eq_div]

theorem qsub_eq (a b : ℚ) : qsub a b = a - b := by
  unfold qsub
  rw [Rat.mkRat_eq_div, Rat.sub_def]
  rw [Rat.normalize_eq_mkRat, Rat.mkRat_eq_div]

theorem qmul_eq (a b : ℚ) : qmul a b = a * b := by
  unfold qmul
  rw [Rat.mkRat_eq_div, Rat.mul_def]
  rw [Rat.normalize_eq_mkRat, Rat.mkRat_eq_div]

theorem qofNat_eq (n : Nat) : qofNat n = (n : ℚ) := by
  unfold qofNat
  rw [Rat.mkRat_eq_div]
  simp

theorem qofInt_eq (i : Int) : qofInt i = (i : ℚ) := by
  unfold qofInt
  rw [Rat.mkRat_eq_div]
  simp

theorem qhalf_eq (q : ℚ) : qhalf q = q / 2 := by
  unfold qhalf
  rw [Rat.mkRat_eq_div]
  push_cast
  rw [div_mul_eq_div_div, Rat.num_div_den]

/-- Kernel-reducible absolute value on `ℚ` (the lattice `|·|` does not
reduce by `decide`); proved equal to `|·|` below. -/
def qabs (q : ℚ) : ℚ := if q < 0 then -q else q

theorem qabs_eq_abs (q : ℚ) : qabs q = |q| := by
  unfold qabs
  split
  · exact (abs_of_neg (by assumption)).symm
  · exact (abs_of_nonneg (by linarith [not_lt.mp (by assumption)])).symm

/-- Kernel-reducible floor of a nonnegative rational. -/
def qfloorNN (q : ℚ) : Int := q.num / (q.den : Int)

/-- Round a nonnegative rational to the nearest integer, ties to even
(the IEEE-754 rounding used when `{:.15}` formats a binary float). -/
def roundHalfEven (q : ℚ) : Nat :=
  let fl := qfloorNN q
  let fr := qsub q (qofInt fl)
  (if fr < mkRat 1 2 then fl
   else if mkRat 1 2 < fr then fl + 1
   else if fl % 2 = 0 then fl else fl + 1).toNat

/-- Rust `{:.15}` of a coordinate: optional minus sign, integer part, a
dot, and exactly fifteen fraction digits.  The scaled value
`round-half-even (|q| * 10^15)` is computed directly on the numerator and
denominator. -/
def fmt15 (q : ℚ) : Bytes :=
  let mag := q.num.natAbs * 10 ^ 15
  let quot := mag / q.den
  let rem := mag % q.den
  let n := if 2 * rem < q.den then quot
           else if q.den < 2 * rem then quot + 1
           else if quot % 2 = 0 then quot else quot + 1
  let sign : Bytes := if q.num < 0 then [45] else []
  sign ++ natDigits (n / 10 ^ 15) ++ [46] ++
    List.replicate (15 - (natDigits (n % 10 ^ 15)).length) 48 ++
    natDigits (n % 10 ^ 15)

theorem fmt15_half :
    fmt15 (mkRat 1 2) = [48, 46, 53] ++ List.replicate 14 48 := by decide

theorem fmt15_zero : fmt15 0 = 48 :: 46 :: List.replicate 15 48 := by decide

/-! ## Geometry (`src/geometry.rs`) -/

/-- Tolerance for floating point comparisons (`GEOMETRIC_TOLERANCE`). -/
def GEOMETRIC_TOLERANCE : ℚ := mkRat 1 (10 ^ 9)

/-- A 2D point (`Point`); `f64` coordinates modelled as `ℚ`. -/
structure Point where
  x : ℚ
  y : ℚ
  deriving DecidableEq

/-- `Point::MAX_COORDINATE`. -/
def MAX_COORDINATE : ℚ := qofNat (10 ^ 10)

/-- `Point::is_valid`: finite coordinates within bounds.  Every `ℚ` is
finite, so only the bound remains. -/
def Point.is_valid (p : Point) : Bool :=
  qabs p.x < MAX_COORDINATE && qabs p.y < MAX_COORDINATE

/-- `Point::midpoint`. -/
def Point.midpoint (p other : Point) : Point :=
  ⟨qhalf (qadd p.x other.x), qhalf (qadd p.y other.y)⟩

/-- `Point::hash`: SHA-256 of `format!("{:.15},{:.15}", x, y)`, rendered
as a lowercase hex string (64 ASCII bytes). -/
def Point.hash (p : Point) : Bytes :=
  hexEncode (sha256 (fmt15 p.x ++ [44] ++ fmt15 p.y))

/-- `Point::equals`: componentwise closeness within the tolerance. -/
def Point.equals (p other : Point) : Bool :=
  qabs (p.x - other.x) < GEOMETRIC_TOLERANCE &&
    qabs (p.y - other.y) < GEOMETRIC_TOLERANCE

/-- A triangle (`Triangle`).  `parent_hash` and `owner` are byte strings
(the Rust code stores hex strings / addresses). -/
structure Triangle where
  a : Point
  b : Point
  c : Point
  parent_hash : Option Bytes
  owner : Bytes
  deriving DecidableEq

/-- `Triangle::area`: absolute Shoelace determinant over two. -/
def Triangle.area (t : Triangle) : ℚ :=
  qhalf (qabs (qadd (qadd (qmul t.a.x (qsub t.b.y t.c.y))
    (qmul t.b.x (qsub t.c.y t.a.y))) (qmul t.c.x (qsub t.a.y t.b.y))))

/-- Byte-wise lexicographic comparison of byte strings — the `Ord` used
by Rust's `Vec::<String>::sort`. -/
def bytesLe : Bytes → Bytes → Bool
  | [], _ => true
  | _ :: _, [] => false
  | a :: as, b :: bs => if a < b then true else if b < a then false else bytesLe as bs

/-- The propositional form of `bytesLe`, for `List.insertionSort`. -/
def bLE (x y : Bytes) : Prop := bytesLe x y = true

instance : DecidableRel bLE := fun x y => inferInstanceAs (Decidable (bytesLe x y = true))

/-- `Triangle::hash`: sort the three vertex digests (lexicographically,
as Rust sorts `String`s), concatenate, SHA-256, hex-encode. -/
def Triangle.hash (t : Triangle) : Bytes :=
  hexEncode (sha256 (List.insertionSort bLE [t.a.hash, t.b.hash, t.c.hash]).flatten)

/-- `Triangle::subdivide`: the three corner children, each inheriting the
parent id and owner. -/
def Triangle.subdivide (t : Triangle) : List Triangle :=
  let mid_ab := t.a.midpoint t.b
  let mid_bc := t.b.midpoint t.c
  let mid_ca := t.c.midpoint t.a
  let ph := some t.hash
  [⟨t.a, mid_ab, mid_ca, ph, t.owner⟩,
   ⟨mid_ab, t.b, mid_bc, ph, t.owner⟩,
   ⟨mid_ca, mid_bc, t.c, ph, t.owner⟩]

/-- `Triangle::is_valid`: valid vertices and non-degenerate area. -/
def Triangle.is_valid (t : Triangle) : Bool :=
  t.a.is_valid && t.b.is_valid && t.c.is_valid && decide (GEOMETRIC_TOLERANCE < t.area)

/-! ## Association-list model of `HashMap` -/

/-- First value bound to `k` (`HashMap::get`). -/
def alLookup {α : Type} (l : List (Bytes × α)) (k : Bytes) : Option α :=
  match l with
  | [] => none
  | (k', v) :: rest => if k' = k then some v else alLookup rest k

/-- `HashMap::contains_key`. -/
def alContains {α : Type} (l : List (Bytes × α)) (k : Bytes) : Bool :=
  (alLookup l k).isSome

/-- `HashMap::insert`: replace the binding in place if the key is
present, otherwise append it. -/
def alInsert {α : Type} (l : List (Bytes × α)) (k : Bytes) (v : α) :
    List (Bytes × α) :=
  match l with
  | [] => [(k, v)]
  | (k', v') :: rest =>
      if k' = k then (k, v) :: rest else (k', v') :: alInsert rest k v

/-- `HashMap::remove` (drops the binding, if any). -/
def alRemove {α : Type} (l : List (Bytes × α)) (k : Bytes) :
    List (Bytes × α) :=
  match l with
  | [] => []
  | (k', v') :: rest =>
      if k' = k then rest else (k', v') :: alRemove rest k

/-! ## Errors (`src/error.rs`), message payloads elided -/

/-- `ChainError`; the `String` payloads of the Rust variants are elided
(no claim inspects them). -/
inductive ChainError where
  | InvalidBlockLinkage
  | InvalidProofOfWork
  | InvalidMerkleRoot
  | InvalidTransaction
  | TriangleNotFound
  | OrphanBlock
  deriving DecidableEq

/-- The signature-verification oracle standing for
`crypto::verify_signature(public_key, message, signature)`; the
`secp256k1` library is outside the repository.  The `CryptoError` path for
malformed keys is abstracted away (no claim depends on it). -/
abbrev SigVerify := Bytes → Bytes → Bytes → Bool

/-! ## Transactions (`src/transaction.rs`) -/

/-- `SubdivisionTx`. -/
structure SubdivisionTx where
  parent_hash : Bytes
  children : List Triangle
  owner_address : Bytes
  fee : Nat
  nonce : Nat
  signature : Option Bytes
  public_key : Option Bytes
  deriving DecidableEq

/-- `CoinbaseTx`. -/
structure CoinbaseTx where
  reward_area : Nat
  beneficiary_address : Bytes
  deriving DecidableEq

/-- `TransferTx`. -/
structure TransferTx where
  input_hash : Bytes
  new_owner : Bytes
  sender : Bytes
  fee : Nat
  nonce : Nat
  signature : Option Bytes
  public_key : Option Bytes
  memo : Option Bytes
  deriving DecidableEq

/-- `Transaction`: the tagged union of the three variants. -/
inductive Transaction where
  | transfer (tx : TransferTx)
  | subdivision (tx : SubdivisionTx)
  | coinbase (tx : CoinbaseTx)
  deriving DecidableEq

/-- The ASCII bytes of the Rust literal spelled c-o-i-n-b-a-s-e. -/
def coinbaseTag : Bytes := [99, 111, 105, 110, 98, 97, 115, 101]

/-- The ASCII bytes of the Rust literal spelled t-r-a-n-s-f-e-r. -/
def transferTag : Bytes := [116, 114, 97, 110, 115, 102, 101, 114]

/-- The ASCII bytes of the Rust literal spelled T-R-A-N-S-F-E-R-colon. -/
def transferSigTag : Bytes := [84, 82, 65, 78, 83, 70, 69, 82, 58]

/-- `Transaction::hash`: SHA-256 over the variant's canonical byte feed
(signatures excluded). -/
def Transaction.hash : Transaction → Bytes
  | .subdivision tx =>
      sha256 (tx.parent_hash ++ tx.children.flatMap Triangle.hash ++
        tx.owner_address ++ leBytes8 tx.fee ++ leBytes8 tx.nonce)
  | .coinbase tx =>
      sha256 (coinbaseTag ++ leBytes8 tx.reward_area ++ tx.beneficiary_address)
  | .transfer tx =>
      sha256 (transferTag ++ tx.input_hash ++ tx.new_owner ++ tx.sender ++
        leBytes8 tx.fee ++ leBytes8 tx.nonce)

/-- `SubdivisionTx::signable_message`. -/
def SubdivisionTx.signable_message (tx : SubdivisionTx) : Bytes :=
  tx.parent_hash ++ tx.children.flatMap Triangle.hash ++
    tx.owner_address ++ leBytes8 tx.fee ++ leBytes8 tx.nonce

/-- `SubdivisionTx::validate_signature`: signature and key present, and
the oracle accepts. -/
def SubdivisionTx.validate_signature (verify : SigVerify)
    (tx : SubdivisionTx) : Except ChainError Unit :=
  match tx.signature, tx.public_key with
  | some s, some pk =>
      if verify pk tx.signable_message s then .ok () else .error .InvalidTransaction
  | _, _ => .error .InvalidTransaction

/-- `UTXO state (`TriangleState`): triangle-id → triangle. -/
structure TriangleState where
  utxo_set : List (Bytes × Triangle)
  deriving DecidableEq

/-- `TriangleState::new`. -/
def TriangleState.new : TriangleState := ⟨[]⟩

/-- `TriangleState::count`. -/
def TriangleState.count (s : TriangleState) : Nat := s.utxo_set.length

/-- `SubdivisionTx::validate`: stateless signature check, parent lookup,
exactly three children, and vertex-wise tolerance equality with the
canonical subdivision of the parent. -/
def SubdivisionTx.validate (verify : SigVerify) (tx : SubdivisionTx)
    (state : TriangleState) : Except ChainError Unit := do
  tx.validate_signature verify
  match alLookup state.utxo_set tx.parent_hash with
  | none => .error .TriangleNotFound
  | some parent =>
    let expected := parent.subdivide
    if tx.children.length ≠ 3 then .error .InvalidTransaction
    else if (tx.children.zip expected).all
        (fun ce => ce.1.a.equals ce.2.a && ce.1.b.equals ce.2.b && ce.1.c.equals ce.2.c)
      then .ok ()
      else .error .InvalidTransaction

/-- `CoinbaseTx::MAX_REWARD_AREA`. -/
def MAX_REWARD_AREA : Nat := 1000

/-- `CoinbaseTx::validate`. -/
def CoinbaseTx.validate (tx : CoinbaseTx) : Except ChainError Unit :=
  if tx.reward_area = 0 then .error .InvalidTransaction
  else if MAX_REWARD_AREA < tx.reward_area then .error .InvalidTransaction
  else if tx.beneficiary_address = [] then .error .InvalidTransaction
  else .ok ()

/-- `TransferTx::MAX_MEMO_LENGTH`. -/
def MAX_MEMO_LENGTH : Nat := 256

/-- `TransferTx::signable_message`. -/
def TransferTx.signable_message (tx : TransferTx) : Bytes :=
  transferSigTag ++ tx.input_hash ++ tx.new_owner ++ tx.sender ++
    leBytes8 tx.fee ++ leBytes8 tx.nonce

/-- `TransferTx::validate`: presence of signature and key, and the
oracle accepts.  It takes no state argument in the source. -/
def TransferTx.validate (verify : SigVerify) (tx : TransferTx) :
    Except ChainError Unit :=
  match tx.signature, tx.public_key with
  | some s, some pk =>
      if verify pk tx.signable_message s then .ok () else .error .InvalidTransaction
  | _, _ => .error .InvalidTransaction

/-- `Transaction::validate(state)`: dispatch to the variant's validator.
The `Transfer` arm calls `TransferTx::validate`, which ignores `state`. -/
def Transaction.validate (verify : SigVerify) (state : TriangleState) :
    Transaction → Except ChainError Unit
  | .subdivision tx => tx.validate verify state
  | .coinbase tx => tx.validate
  | .transfer tx => tx.validate verify

/-- Modelled from the spec: `Transaction::fee` is called from
`blockchain.rs` (`calculate_total_fees`, `get_transactions_by_fee`) and by
the tests, but its definition is not among the files under `src/`.  The
spec (§4.3) fixes it: 0 for Coinbase, the declared fee for Subdivision and
for Transfer (the blockchain tests assert exactly this). -/
def Transaction.fee : Transaction → Nat
  | .coinbase _ => 0
  | .subdivision tx => tx.fee
  | .transfer tx => tx.fee

/-- `TriangleState::apply_subdivision`: parent must be present; remove
it; insert the children keyed by their geometry hash. -/
def TriangleState.apply_subdivision (s : TriangleState)
    (tx : SubdivisionTx) : Except ChainError TriangleState :=
  if alContains s.utxo_set tx.parent_hash then
    .ok ⟨tx.children.foldl (fun m child => alInsert m child.hash child)
          (alRemove s.utxo_set tx.parent_hash)⟩
  else .error .TriangleNotFound

/-- Kernel-reducible integer square root (largest `r` with `r * r ≤ n`
for `n < 2 ^ 66`), by a descending binary search on the bits of the
root. -/
def nsqrtBits : Nat → Nat → Nat → Nat
  | 0, _, acc => acc
  | k + 1, n, acc =>
      let cand := acc + 2 ^ k
      if cand * cand ≤ n then nsqrtBits k n cand else nsqrtBits k n acc

/-- Kernel-reducible integer square root. -/
def nsqrt (n : Nat) : Nat := nsqrtBits 33 n 0

theorem nsqrt_four : nsqrt 4 = 2 := by decide

theorem nsqrt_2000 : nsqrt 2000 = 44 := by decide

/-- Model of `f64::sqrt`, reached only through `apply_coinbase`.
IEEE-754 square root is exact when the true root is representable; the
model is exact on rationals whose numerator and denominator are perfect
squares, and returns 0 elsewhere (no theorem below evaluates it outside
the exact domain). -/
def sqrtQ (q : ℚ) : ℚ :=
  let n := nsqrt q.num.toNat
  let d := nsqrt q.den
  if (n * n : Int) = q.num ∧ d * d = q.den then mkRat n d else 0

/-- `TriangleState::apply_coinbase`: mint a right isosceles triangle of
side `sqrt(2 · reward_area)` at x-offset `height · 1000`. -/
def TriangleState.apply_coinbase (s : TriangleState) (tx : CoinbaseTx)
    (block_height : Nat) : Except ChainError TriangleState :=
  let side := sqrtQ (qofNat (2 * tx.reward_area))
  if side ≤ 0 then .error .InvalidTransaction
  else
    let offset : ℚ := qofNat (block_height * 1000)
    let tri : Triangle :=
      ⟨⟨offset, 0⟩, ⟨qadd offset side, 0⟩, ⟨offset, side⟩, none,
        tx.beneficiary_address⟩
    .ok ⟨alInsert s.utxo_set tri.hash tri⟩

/-! ## Blocks and the Merkle root (`src/blockchain.rs`) -/

/-- The all-zero 32-byte digest. -/
def zeros32 : Bytes := List.replicate 32 0

/-- `BlockHeader`. -/
structure BlockHeader where
  height : Nat
  previous_hash : Bytes
  timestamp : Int
  difficulty : Nat
  nonce : Nat
  merkle_root : Bytes
  deriving DecidableEq

/-- `BlockHeader::calculate_hash`: SHA-256 over the little-endian field
encoding. -/
def BlockHeader.calculate_hash (h : BlockHeader) : Bytes :=
  sha256 (leBytes8 h.height ++ h.previous_hash ++ leBytes8Int h.timestamp ++
    leBytes8 h.difficulty ++ leBytes8 h.nonce ++ h.merkle_root)

/-- `Block`.  `hash` is a stored field, set by the miner — not derived. -/
structure Block where
  header : BlockHeader
  hash : Bytes
  transactions : List Transaction
  deriving DecidableEq

/-- `Block::calculate_hash` — byte-for-byte the same feed as
`BlockHeader::calculate_hash` (the Rust code repeats the field list). -/
def Block.calculate_hash (b : Block) : Bytes :=
  b.header.calculate_hash

/-- SHA-256 of the concatenation of two digests (one merkle pair). -/
def pairHash (x y : Bytes) : Bytes := sha256 (x ++ y)

/-- Hash adjacent pairs (`chunks(2)` + pair hash); the input always has
even length when called. -/
def merklePair : List Bytes → List Bytes
  | x :: y :: rest => pairHash x y :: merklePair rest
  | _ => []

/-- One level of the merkle loop: duplicate the last hash if the level
has odd cardinality, then hash adjacent pairs. -/
def merkleLevelUp (l : List Bytes) : List Bytes :=
  merklePair (if l.length % 2 ≠ 0 then l ++ [(l.getLast?).getD []] else l)

/-- The `while hashes.len() > 1` loop.  The first argument is fuel; the
level length strictly decreases each iteration, so any fuel at least the
initial length reaches the fixpoint (`calculate_merkle_root` passes the
initial length). -/
def merkleLoopFuel : Nat → List Bytes → Bytes
  | _, [] => zeros32
  | _, [h] => h
  | 0, l => l.headI
  | fuel + 1, l => merkleLoopFuel fuel (merkleLevelUp l)

/-- `Block::calculate_merkle_root`. -/
def Block.calculate_merkle_root (transactions : List Transaction) : Bytes :=
  if transactions.isEmpty then zeros32
  else merkleLoopFuel transactions.length (transactions.map Transaction.hash)

/-- `MAX_DIFFICULTY` (the local constant of `verify_proof_of_work`). -/
def MAX_DIFFICULTY : Nat := 64

/-- `Block::verify_proof_of_work`: the first `min difficulty 64`
characters of the hex rendering of the **stored** `hash` field are the
character 0 (ASCII 48).  The recomputed header hash plays no part. -/
def Block.verify_proof_of_work (b : Block) : Bool :=
  let difficulty := min b.header.difficulty MAX_DIFFICULTY
  ((hexEncode b.hash).take difficulty).all (fun ch => ch == 48)

/-! ## Mempool (`src/blockchain.rs`) -/

/-- `Mempool::MAX_TRANSACTIONS`. -/
def MAX_TRANSACTIONS : Nat := 10000

/-- `Mempool::MAX_PER_ADDRESS`. -/
def MAX_PER_ADDRESS : Nat := 100

/-- The mempool: pending transactions indexed by their hash. -/
structure Mempool where
  transactions : List (Bytes × Transaction)
  deriving DecidableEq

/-- `Mempool::new`. -/
def Mempool.new : Mempool := ⟨[]⟩

/-- `Mempool::len`. -/
def Mempool.len (m : Mempool) : Nat := m.transactions.length

/-- `Mempool::is_empty`. -/
def Mempool.is_empty (m : Mempool) : Bool := m.transactions.isEmpty

instance {ε α : Type} [DecidableEq ε] [DecidableEq α] :
    DecidableEq (Except ε α) := fun a b =>
  match a, b with
  | .ok x, .ok y =>
      if h : x = y then .isTrue (by rw [h]) else .isFalse (by simp [h])
  | .error x, .error y =>
      if h : x = y then .isTrue (by rw [h]) else .isFalse (by simp [h])
  | .ok _, .error _ => .isFalse (by simp)
  | .error _, .ok _ => .isFalse (by simp)

/-- `Except` success as a `Bool` (Rust `.is_ok()`). -/
def exceptOk {ε α : Type} : Except ε α → Bool
  | .ok _ => true
  | .error _ => false

/-- The fee used by `evict_lowest_fee_transaction` — its own inline
`match`: a Subdivision counts as 0 there, whatever its declared fee. -/
def feeForEvict : Transaction → Nat
  | .transfer t => t.fee
  | .subdivision _ => 0
  | .coinbase _ => 0

/-- `Mempool::evict_lowest_fee_transaction`: scan for the entry of
strictly least `feeForEvict`, starting from the sentinel `u64::MAX`;
remove it if one was found.  (If every entry has fee `u64::MAX`, the
strict comparison never fires and nothing is evicted.) -/
def Mempool.evict_lowest_fee_transaction (m : Mempool) : Mempool :=
  if m.transactions = [] then m
  else
    let scan := m.transactions.foldl
      (fun acc e =>
        if feeForEvict e.2 < acc.1 then (feeForEvict e.2, some e.1) else acc)
      ((2 ^ 64 - 1 : Nat), (none : Option Bytes))
    match scan.2 with
    | some k => ⟨alRemove m.transactions k⟩
    | none => m

/-- The sender whose quota `add_transaction` charges. -/
def txSender : Transaction → Option Bytes
  | .transfer t => some t.sender
  | .subdivision s => some s.owner_address
  | .coinbase _ => none

/-- The per-address counting predicate of `add_transaction` (its inline
`match`; the wildcard arm covers Coinbase). -/
def senderMatches (sender : Bytes) : Transaction → Bool
  | .transfer t => t.sender == sender
  | .subdivision s => s.owner_address == sender
  | .coinbase _ => false

/-- The tail of `add_transaction`: evict when at capacity, then insert. -/
def Mempool.insertStep (m : Mempool) (tx_hash : Bytes) (tx : Transaction) :
    Mempool :=
  let m' := if MAX_TRANSACTIONS ≤ m.transactions.length
            then m.evict_lowest_fee_transaction else m
  ⟨alInsert m'.transactions tx_hash tx⟩

/-- `Mempool::add_transaction`: duplicate check, per-variant validation
(Coinbase rejected outright), per-sender quota, then evict-if-full and
insert. -/
def Mempool.add_transaction (verify : SigVerify) (m : Mempool)
    (tx : Transaction) : Except ChainError Mempool :=
  let tx_hash := tx.hash
  if alContains m.transactions tx_hash then .error .InvalidTransaction
  else
    let sigCheck : Except ChainError Unit :=
      match tx with
      | .transfer t => t.validate verify
      | .coinbase _ => .error .InvalidTransaction
      | .subdivision s => s.validate_signature verify
    match sigCheck with
    | .error e => .error e
    | .ok _ =>
      match txSender tx with
      | some sender =>
          if MAX_PER_ADDRESS ≤
              (m.transactions.filter (fun e => senderMatches sender e.2)).length
          then .error .InvalidTransaction
          else .ok (m.insertStep tx_hash tx)
      | none => .ok (m.insertStep tx_hash tx)

/-- `Mempool::remove_transaction`; returns the removed transaction, if
any, next to the updated pool. -/
def Mempool.remove_transaction (m : Mempool) (tx_hash : Bytes) :
    Mempool × Option Transaction :=
  (⟨alRemove m.transactions tx_hash⟩, alLookup m.transactions tx_hash)

/-- `Mempool::remove_transactions`. -/
def Mempool.remove_transactions (m : Mempool) (tx_hashes : List Bytes) :
    Mempool :=
  ⟨tx_hashes.foldl alRemove m.transactions⟩

/-- `Mempool::clear`. -/
def Mempool.clear (_ : Mempool) : Mempool := ⟨[]⟩

/-- `Mempool::get_all_transactions`. -/
def Mempool.get_all_transactions (m : Mempool) : List Transaction :=
  m.transactions.map Prod.snd

/-- `Mempool::get_transaction`. -/
def Mempool.get_transaction (m : Mempool) (tx_hash : Bytes) :
    Option Transaction :=
  alLookup m.transactions tx_hash

/-- The per-entry keep condition of `validate_and_prune`. -/
def pruneKeeps (verify : SigVerify) (state : TriangleState) :
    Transaction → Bool
  | .subdivision sub =>
      alContains state.utxo_set sub.parent_hash &&
        exceptOk (sub.validate verify state)
  | .transfer t =>
      alContains state.utxo_set t.input_hash && exceptOk (t.validate verify)
  | .coinbase _ => false

/-- `Mempool::validate_and_prune`: drop entries invalid against the given
state; return the removed count next to the pruned pool. -/
def Mempool.validate_and_prune (verify : SigVerify) (m : Mempool)
    (state : TriangleState) : Nat × Mempool :=
  let keep := m.transactions.filter (fun e => pruneKeeps verify state e.2)
  (m.transactions.length - keep.length, ⟨keep⟩)

/-! ## The blockchain (`src/blockchain.rs`) -/

/-- `DIFFICULTY_ADJUSTMENT_WINDOW`. -/
def DIFFICULTY_ADJUSTMENT_WINDOW : Nat := 2016

/-- `TARGET_BLOCK_TIME_SECONDS`. -/
def TARGET_BLOCK_TIME_SECONDS : Int := 60

/-- `INITIAL_MINING_REWARD`. -/
def INITIAL_MINING_REWARD : Nat := 1000

/-- `REWARD_HALVING_INTERVAL`. -/
def REWARD_HALVING_INTERVAL : Nat := 210000

/-- `MAX_HALVINGS`. -/
def MAX_HALVINGS : Nat := 64

/-- `MAX_SUPPLY = INITIAL_MINING_REWARD * REWARD_HALVING_INTERVAL * 2`. -/
def MAX_SUPPLY : Nat := INITIAL_MINING_REWARD * REWARD_HALVING_INTERVAL * 2

/-- `MAX_FUTURE_TIMESTAMP_DRIFT` (2 hours, in seconds). -/
def MAX_FUTURE_TIMESTAMP_DRIFT : Int := 2 * 3600

/-- The ASCII bytes of the owner string of the genesis triangle. -/
def genesisOwner : Bytes :=
  [103, 101, 110, 101, 115, 105, 115, 95, 111, 119, 110, 101, 114]

/-- `genesis_triangle()` (the `blockchain.rs` one): vertices (0,0), (1,0),
(0.5, 0.866025403784).  The third y-coordinate is the 12-digit decimal of
the Rust literal; its `f64` image is within half an ulp, so the `{:.15}`
renderings agree. -/
def genesis_triangle : Triangle :=
  ⟨⟨qofNat 0, qofNat 0⟩, ⟨qofNat 1, qofNat 0⟩,
   ⟨mkRat 1 2, mkRat 866025403784 (10 ^ 12)⟩, none, genesisOwner⟩

/-- `Blockchain`. -/
structure Blockchain where
  blocks : List Block
  block_index : List (Bytes × Block)
  forks : List (Bytes × Block)
  state : TriangleState
  difficulty : Nat
  mempool : Mempool
  deriving DecidableEq

/-- `Blockchain::new` (the genesis-block timestamp `Utc::now()` is the
explicit `now`). -/
def Blockchain.new (now : Int) : Blockchain :=
  let genesis := genesis_triangle
  let genesis_block : Block := ⟨⟨0, zeros32, now, 2, 0, zeros32⟩, zeros32, []⟩
  { blocks := [genesis_block],
    block_index := [(genesis_block.hash, genesis_block)],
    forks := [],
    state := ⟨[(genesis.hash, genesis)]⟩,
    difficulty := 2,
    mempool := Mempool.new }

/-- `Blockchain::calculate_block_reward`: halve every 210 000 blocks,
zero from the 64th halving on. -/
def Blockchain.calculate_block_reward (height : Nat) : Nat :=
  let halvings := height / REWARD_HALVING_INTERVAL
  if MAX_HALVINGS ≤ halvings then 0
  else INITIAL_MINING_REWARD >>> halvings

/-- `u64::saturating_add`. -/
def satAdd64 (a b : Nat) : Nat := min (a + b) (2 ^ 64 - 1)

/-- `Blockchain::calculate_current_supply`: the ascending loop
`for i in 1..=height { total = total.saturating_add(reward(i)) }`. -/
def Blockchain.calculate_current_supply : Nat → Nat
  | 0 => 0
  | h + 1 =>
      satAdd64 (Blockchain.calculate_current_supply h)
        (Blockchain.calculate_block_reward (h + 1))

/-- Recognize a coinbase (`matches!(tx, Transaction::Coinbase(_))`). -/
def isCoinbase : Transaction → Bool
  | .coinbase _ => true
  | _ => false

/-- `Blockchain::calculate_total_fees`: saturating sum of `fee()` over
the non-coinbase transactions. -/
def Blockchain.calculate_total_fees (transactions : List Transaction) : Nat :=
  ((transactions.filter (fun tx => !isCoinbase tx)).map Transaction.fee).foldl
    satAdd64 0

/-- The indexed coinbase scan of `validate_block`: error as soon as a
coinbase appears at an index other than 0; otherwise count the coinbases
and keep the last reward seen. -/
def coinbaseScanAux : Nat → Nat → Nat → List Transaction →
    Except ChainError (Nat × Nat)
  | _, count, reward, [] => .ok (count, reward)
  | i, count, reward, tx :: rest =>
      match tx with
      | .coinbase cb =>
          if i ≠ 0 then .error .InvalidTransaction
          else coinbaseScanAux (i + 1) (count + 1) cb.reward_area rest
      | _ => coinbaseScanAux (i + 1) count reward rest

/-- The final per-transaction loop of `validate_block`: subdivisions and
transfers are first checked for presence of their input in the UTXO set,
then fully validated; coinbases are validated statelessly. -/
def validateTxs (verify : SigVerify) (state : TriangleState) :
    List Transaction → Except ChainError Unit
  | [] => .ok ()
  | tx :: rest =>
      match tx with
      | .subdivision sub =>
          if !alContains state.utxo_set sub.parent_hash then
            .error .InvalidTransaction
          else
            match sub.validate verify state with
            | .error e => .error e
            | .ok _ => validateTxs verify state rest
      | .coinbase cb =>
          match cb.validate with
          | .error e => .error e
          | .ok _ => validateTxs verify state rest
      | .transfer t =>
          if !alContains state.utxo_set t.input_hash then
            .error .InvalidTransaction
          else
            match t.validate verify with
            | .error e => .error e
            | .ok _ => validateTxs verify state rest

/-- `Blockchain::validate_block`, checks in source order: parent known;
height; timestamp monotone; timestamp drift; proof of work; merkle root;
coinbase position / count / reward cap; per-transaction validation
against the current UTXO snapshot. -/
def Blockchain.validate_block (verify : SigVerify) (c : Blockchain)
    (block : Block) (now : Int) : Except ChainError Unit :=
  match alLookup c.block_index block.header.previous_hash with
  | none => .error .InvalidBlockLinkage
  | some parent_block =>
    if block.header.height ≠ parent_block.header.height + 1 then
      .error .InvalidBlockLinkage
    else if block.header.timestamp ≤ parent_block.header.timestamp then
      .error .InvalidTransaction
    else if now + MAX_FUTURE_TIMESTAMP_DRIFT < block.header.timestamp then
      .error .InvalidTransaction
    else if !block.verify_proof_of_work then
      .error .InvalidProofOfWork
    else if block.header.merkle_root ≠
        Block.calculate_merkle_root block.transactions then
      .error .InvalidMerkleRoot
    else
      match coinbaseScanAux 0 0 0 block.transactions with
      | .error e => .error e
      | .ok (coinbase_count, coinbase_reward) =>
        if 0 < block.header.height ∧ coinbase_count ≠ 1 then
          .error .InvalidTransaction
        else if 0 < block.header.height ∧
            satAdd64 (Blockchain.calculate_block_reward block.header.height)
              (Blockchain.calculate_total_fees block.transactions) <
              coinbase_reward then
          .error .InvalidTransaction
        else validateTxs verify c.state block.transactions

/-- One transaction applied to the UTXO state — the body of the
application loop of `apply_block` (case 1) and of the reorg replay. -/
def applyTxStep (state : TriangleState) (tx : Transaction) (height : Nat) :
    Except ChainError TriangleState :=
  match tx with
  | .subdivision sub => state.apply_subdivision sub
  | .coinbase cb => state.apply_coinbase cb height
  | .transfer t =>
      match alLookup state.utxo_set t.input_hash with
      | none => .error .TriangleNotFound
      | some tri =>
          .ok ⟨alInsert state.utxo_set t.input_hash { tri with owner := t.new_owner }⟩

/-- Apply a transaction list in order; on the first error, stop and
return the state reached so far (`&mut self` semantics of the Rust
loop: the earlier transactions stay applied). -/
def applyTxList (state : TriangleState) (txs : List Transaction)
    (height : Nat) : Except ChainError Unit × TriangleState :=
  match txs with
  | [] => (.ok (), state)
  | tx :: rest =>
      match applyTxStep state tx height with
      | .error e => (.error e, state)
      | .ok s' => applyTxList s' rest height

/-- Replay whole blocks during a reorg (each block's transactions at that
block's height); on error, return the partially rebuilt state. -/
def replayBlocks (state : TriangleState) :
    List Block → Except ChainError Unit × TriangleState
  | [] => (.ok (), state)
  | b :: rest =>
      match applyTxList state b.transactions b.header.height with
      | (.error e, s') => (.error e, s')
      | (.ok _, s') => replayBlocks s' rest

/-- The `while let Some(block) = self.forks.get(..)` ancestor walk of the
fork-length computation.  The first argument is fuel; the walk visits
pairwise distinct fork entries, so fuel `forks.length` is enough on the
acyclic data `apply_block` builds (hash-keyed blocks cannot cycle). -/
def forkWalk (forks : List (Bytes × Block)) : Nat → Bytes → List Block
  | 0, _ => []
  | fuel + 1, h =>
      match alLookup forks h with
      | some b => b :: forkWalk forks fuel b.header.previous_hash
      | none => []

/-- The backward walk through `block_index` that collects the chain to
reorganize to, stopping after pushing the genesis block.  Fueled like
`forkWalk`. -/
def reorgWalk (index : List (Bytes × Block)) : Nat → Block → List Block
  | 0, _ => []
  | fuel + 1, cur =>
      match alLookup index cur.header.previous_hash with
      | none => []
      | some b =>
          if b.header.height = 0 then [cur, b]
          else cur :: reorgWalk index fuel b

/-- Kernel-reducible max on `ℚ` (`f64::max`). -/
def qmax (a b : ℚ) : ℚ := if a ≤ b then b else a

/-- Kernel-reducible min on `ℚ` (`f64::min`). -/
def qmin (a b : ℚ) : ℚ := if a ≤ b then a else b

/-- `f64::round` on a nonnegative rational: half away from zero. -/
def qroundAway (q : ℚ) : Int := qfloorNN (qadd q (mkRat 1 2))

/-- The Rust `as u64` cast of a nonnegative float: saturate into
`[0, 2^64 - 1]`. -/
def castU64 (i : Int) : Nat :=
  if i < 0 then 0 else min i.toNat (2 ^ 64 - 1)

/-- The elapsed window time measured by `adjust_difficulty`: the
timestamp difference between the last and first of the final 2016
blocks. -/
def retargetElapsed (c : Blockchain) : Int :=
  let window := c.blocks.drop (c.blocks.length - DIFFICULTY_ADJUSTMENT_WINDOW)
  ((window.getLast?).elim 0 (fun b => b.header.timestamp)) -
    ((window.head?).elim 0 (fun b => b.header.timestamp))

/-- `Blockchain::adjust_difficulty`: over the last 2016 blocks, compare
elapsed time with the 2015-minute target, clamp the ratio to
[0.25, 4], rescale the difficulty, round, floor at 1.  No upper clamp is
applied here.  (`f64` ratio arithmetic is modelled exactly on `ℚ`.) -/
def Blockchain.adjust_difficulty (c : Blockchain) : Blockchain :=
  if c.blocks.length < DIFFICULTY_ADJUSTMENT_WINDOW then c
  else
    let actual_time := retargetElapsed c
    if actual_time ≤ 0 then c
    else
      let expected_time : Int :=
        ((DIFFICULTY_ADJUSTMENT_WINDOW : Int) - 1) * TARGET_BLOCK_TIME_SECONDS
      let adjustment_factor : ℚ := Rat.divInt expected_time actual_time
      let clamped_factor := qmin (qmax adjustment_factor (mkRat 1 4)) (qofNat 4)
      let new_difficulty :=
        max (castU64 (qroundAway (qmul (qofNat c.difficulty) clamped_factor))) 1
      { c with difficulty := new_difficulty }

/-- `Blockchain::apply_block`.  Returns the `Result` next to the
post-call chain (`&mut self` semantics: on an error raised after partial
mutation, the mutated chain is returned). -/
def Blockchain.apply_block (verify : SigVerify) (c : Blockchain)
    (valid_block : Block) (now : Int) : Except ChainError Unit × Blockchain :=
  match c.validate_block verify valid_block now with
  | .error e => (.error e, c)
  | .ok _ =>
    let parent_hash := valid_block.header.previous_hash
    let last_block_hash := (c.blocks.getLast?).elim zeros32 (fun b => b.hash)
    if parent_hash = last_block_hash then
      let tx_hashes := valid_block.transactions.map Transaction.hash
      match applyTxList c.state valid_block.transactions
          valid_block.header.height with
      | (.error e, s') => (.error e, { c with state := s' })
      | (.ok _, s') =>
        let block_height := valid_block.header.height
        let c1 := { c with
          state := s',
          blocks := c.blocks ++ [valid_block],
          block_index := alInsert c.block_index valid_block.hash valid_block }
        let c2 :=
          if 0 < block_height ∧ block_height % DIFFICULTY_ADJUSTMENT_WINDOW = 0
          then c1.adjust_difficulty else c1
        let m1 := c2.mempool.remove_transactions tx_hashes
        let m2 := (m1.validate_and_prune verify c2.state).2
        (.ok (), { c2 with mempool := m2 })
    else if alContains c.block_index parent_hash then
      let forks' := alInsert c.forks valid_block.hash valid_block
      let index' := alInsert c.block_index valid_block.hash valid_block
      let c' := { c with forks := forks', block_index := index' }
      let fork_chain :=
        valid_block ::
          forkWalk forks' forks'.length valid_block.header.previous_hash
      if c.blocks.length < fork_chain.length then
        let new_blocks := (reorgWalk index' (index'.length + 1) valid_block).reverse
        let st0 : TriangleState := ⟨[(genesis_triangle.hash, genesis_triangle)]⟩
        match replayBlocks st0 (new_blocks.drop 1) with
        | (.error e, sPartial) => (.error e, { c' with state := sPartial })
        | (.ok _, sNew) =>
          let m2 := (c'.mempool.validate_and_prune verify sNew).2
          (.ok (), { c' with state := sNew, blocks := new_blocks, mempool := m2 })
      else (.ok (), c')
    else (.error .OrphanBlock, c)

/-! ## Concrete inputs shared by the scenario theorems -/

set_option maxRecDepth 8000000

set_option maxHeartbeats 10000000

/-- The all-accepting signature oracle: stands for any set of genuinely
valid `secp256k1` signatures (the claims settled on concrete inputs below
do not depend on which well-formed signatures are supplied). -/
def verifyAlways : SigVerify := fun _ _ _ => true

/-- The hex digest of the genesis triangle, as a byte literal (checked
against `Triangle.hash` below). -/
def genHashLit : Bytes :=
  [102, 52, 57, 52, 97, 97, 52, 102, 101, 97, 98, 56, 51, 101, 97, 51,
   53, 54, 102, 51, 97, 99, 102, 51, 98, 55, 101, 57, 101, 57, 101, 57,
   98, 54, 100, 97, 98, 53, 100, 97, 97, 50, 98, 101, 57, 102, 54, 55,
   101, 55, 56, 57, 49, 52, 55, 54, 98, 48, 51, 50, 54, 100, 97, 52]

theorem genHashLit_eq : genHashLit = genesis_triangle.hash := by decide

/-! ## C6 — `Transaction::validate` on a Transfer -/

/-- A signed transfer whose input id is absent from the empty state. -/
def c6transfer : TransferTx :=
  ⟨List.replicate 32 1, [110], [115], 5, 1, some [], some [], none⟩

/-- C6, counterexample.  The claim says `Transaction::validate(state)` on
a Transfer errors whenever the input id is not a key of the UTXO set.  In
the code the Transfer arm delegates to `TransferTx::validate`, which
checks only the signature: against the empty UTXO state, a well-signed
transfer validates `Ok` although its input is absent. -/
theorem C6_counterexample :
    Transaction.validate verifyAlways TriangleState.new (.transfer c6transfer) =
      .ok () ∧
    alContains TriangleState.new.utxo_set c6transfer.input_hash = false := by
  exact ⟨rfl, rfl⟩

/-- C6, amended: `Transaction::validate` on a Transfer ignores the UTXO
snapshot entirely — it equals `TransferTx::validate` (the signature-only
check) for every state, so two arbitrary states give the same verdict.
Input existence for transfers is enforced elsewhere (`validate_block`,
`validate_and_prune`). -/
theorem C6_transfer_validate_ignores_state (verify : SigVerify)
    (s s' : TriangleState) (t : TransferTx) :
    Transaction.validate verify s (.transfer t) =
      Transaction.validate verify s' (.transfer t) ∧
    Transaction.validate verify s (.transfer t) = t.validate verify :=
  ⟨rfl, rfl⟩

/-! ## C4 — the merkle root -/

/-- A concrete coinbase transaction for the merkle counterexample. -/
def c4tx : Transaction := .coinbase ⟨1000, [109]⟩

/-- C4, counterexample.  The claim says the root of a single-transaction
list is the pair hash of the transaction id with itself ("hash-of-hash
promotion").  In the code the `while hashes.len() > 1` loop is never
entered for one leaf, so the root is the transaction id itself, which
differs from the promoted digest. -/
theorem C4_counterexample :
    Block.calculate_merkle_root [c4tx] = c4tx.hash ∧
    Block.calculate_merkle_root [c4tx] ≠ pairHash c4tx.hash c4tx.hash := by
  refine ⟨rfl, ?_⟩
  decide

/-- C4, amended: empty list ⇒ all-zero root; a single transaction is its
own root (no promotion); odd-length levels of two or more hashes promote
(duplicate) the last hash before pairwise SHA-256 hashing — e.g. three
leaves hash as `pair (pair h₁ h₂) (pair h₃ h₃)`. -/
theorem merkleLevelUp_three (x y z : Bytes) :
    merkleLevelUp [x, y, z] = [pairHash x y, pairHash z z] := by
  simp [merkleLevelUp, merklePair]

theorem merkleLevelUp_two (x y : Bytes) :
    merkleLevelUp [x, y] = [pairHash x y] := by
  simp [merkleLevelUp, merklePair]

theorem C4_merkle_root_amended :
    Block.calculate_merkle_root [] = zeros32 ∧
    (∀ tx : Transaction, Block.calculate_merkle_root [tx] = tx.hash) ∧
    (∀ t1 t2 t3 : Transaction,
      Block.calculate_merkle_root [t1, t2, t3] =
        pairHash (pairHash t1.hash t2.hash) (pairHash t3.hash t3.hash)) := by
  refine ⟨rfl, fun tx => rfl, fun t1 t2 t3 => ?_⟩
  show merkleLoopFuel 3 [t1.hash, t2.hash, t3.hash] = _
  rw [show merkleLoopFuel 3 [t1.hash, t2.hash, t3.hash] =
        merkleLoopFuel 2 (merkleLevelUp [t1.hash, t2.hash, t3.hash]) from rfl,
    merkleLevelUp_three,
    show merkleLoopFuel 2 [pairHash t1.hash t2.hash, pairHash t3.hash t3.hash] =
        merkleLoopFuel 1
          (merkleLevelUp [pairHash t1.hash t2.hash, pairHash t3.hash t3.hash])
      from rfl,
    merkleLevelUp_two]
  rfl

/-! ## C2 — the stored block hash is never recomputed -/

/-- The transaction list of the C2 block: one coinbase. -/
def c2txs : List Transaction := [.coinbase ⟨1000, [109]⟩]

/-- A block extending the fresh chain's genesis whose stored `hash` field
is 32 zero bytes — not the recomputed header hash. -/
def c2block : Block :=
  ⟨⟨1, zeros32, 1, 5, 0, Block.calculate_merkle_root c2txs⟩, zeros32, c2txs⟩

theorem hexEncode_zeros32 : hexEncode zeros32 = List.replicate 64 48 := by
  decide

theorem all48_take (n k : Nat) :
    ((List.replicate n 48).take k).all (fun ch => ch == 48) = true := by
  rw [List.take_replicate, List.all_eq_true]
  intro x hx
  rw [List.eq_of_mem_replicate hx]
  rfl

/-- Whatever its difficulty field says, a block whose stored hash is all
zero bytes passes the proof-of-work check: its hex rendering is 64 zero
characters. -/
theorem pow_of_zero_hash (header : BlockHeader) (txs : List Transaction) :
    Block.verify_proof_of_work ⟨header, zeros32, txs⟩ = true := by
  show ((hexEncode zeros32).take (min header.difficulty MAX_DIFFICULTY)).all
    (fun ch => ch == 48) = true
  rw [hexEncode_zeros32]
  exact all48_take _ _

/-- C2: `validate_block` accepts a block whose stored `hash` field (32
zero bytes) differs from `calculate_hash()` of its header: the
proof-of-work check reads the caller-supplied hash, which passes at every
difficulty, and no check compares the stored hash with the recomputed
one. -/
theorem C2_stored_hash_never_recomputed :
    Blockchain.validate_block verifyAlways (Blockchain.new 0) c2block 1000 =
      .ok () ∧
    c2block.hash = zeros32 ∧
    c2block.calculate_hash ≠ c2block.hash ∧
    (∀ d : Nat,
      Block.verify_proof_of_work
        ⟨{ c2block.header with difficulty := d }, c2block.hash,
          c2block.transactions⟩ = true) := by
  refine ⟨by decide, rfl, by decide, fun d => ?_⟩
  exact pow_of_zero_hash _ _

/-! ## C1 — `apply_block` errors and state mutation (scenario S3) -/

/-- The genesis block of a fresh chain started at clock 0. -/
def genesisBlock : Block := ⟨⟨0, zeros32, 0, 2, 0, zeros32⟩, zeros32, []⟩

/-- The fresh chain, written out with the genesis triangle keyed by its
digest literal; proved equal to `Blockchain.new 0` below. -/
def s3start : Blockchain :=
  { blocks := [genesisBlock],
    block_index := [(zeros32, genesisBlock)],
    forks := [],
    state := ⟨[(genHashLit, genesis_triangle)]⟩,
    difficulty := 2,
    mempool := ⟨[]⟩ }

theorem s3start_eq : s3start = Blockchain.new 0 := by decide

/-- First subdivision of the genesis triangle (canonical children). -/
def s3sub1 : SubdivisionTx :=
  ⟨genHashLit, genesis_triangle.subdivide, [97], 0, 1, some [], some []⟩

/-- Second subdivision of the same parent, distinguished by its nonce. -/
def s3sub2 : SubdivisionTx :=
  ⟨genHashLit, genesis_triangle.subdivide, [97], 0, 2, some [], some []⟩

/-- The S3 block body: one coinbase, then two subdivisions spending the
same parent. -/
def s3txs : List Transaction :=
  [.coinbase ⟨2, [109]⟩, .subdivision s3sub1, .subdivision s3sub2]

/-- The S3 block: extends genesis, stored hash all zeros (passes proof of
work at any difficulty), merkle root as recomputed from the body (the
byte literal; `validate_block` recomputes and compares it). -/
def s3block : Block :=
  ⟨⟨1, zeros32, 1, 0, 0,
    [120, 4, 106, 115, 12, 81, 79, 51, 127, 68, 216, 73, 239, 4, 99, 126,
     160, 233, 61, 193, 37, 65, 150, 26, 28, 36, 130, 60, 39, 139, 94, 50]⟩,
   zeros32, s3txs⟩

/-- C1, counterexample.  Applying the S3 block to the fresh chain returns
an error (the second subdivision's parent is gone), yet the UTXO set is
*not* what it was before the call: the genesis triangle, present before,
has been consumed by the first subdivision.  A single evaluation of
`apply_block` witnesses both conjuncts. -/
theorem C1_counterexample :
    ((fun p => !exceptOk p.1 && !alContains p.2.state.utxo_set genHashLit)
        (Blockchain.apply_block verifyAlways s3start s3block 1000) &&
      alContains s3start.state.utxo_set genHashLit) = true := by
  with_unfolding_all rfl

/-- C1, amended: when `validate_block` rejects a block, `apply_block`
returns that error and the blockchain is unchanged (validation precedes
every mutation).  A block that passes validation can still fail *during*
application — S3 being the example, settled by the counterexample — and
then the partial mutation persists. -/
theorem C1_validate_error_leaves_chain_unchanged (verify : SigVerify)
    (c : Blockchain) (b : Block) (now : Int) (e : ChainError)
    (h : c.validate_block verify b now = .error e) :
    c.apply_block verify b now = (.error e, c) := by
  unfold Blockchain.apply_block
  rw [h]

/-- A block whose parent is unknown to the fresh chain. -/
def c1orphan : Block := ⟨⟨1, List.replicate 32 9, 1, 0, 0, zeros32⟩, zeros32, []⟩

theorem C1_witness :
    Blockchain.validate_block verifyAlways s3start c1orphan 1000 =
      .error .InvalidBlockLinkage ∧
    Blockchain.apply_block verifyAlways s3start c1orphan 1000 =
      (.error .InvalidBlockLinkage, s3start) := by
  have h : Blockchain.validate_block verifyAlways s3start c1orphan 1000 =
      .error .InvalidBlockLinkage := by decide
  exact ⟨h, C1_validate_error_leaves_chain_unchanged verifyAlways s3start
    c1orphan 1000 .InvalidBlockLinkage h⟩

/-! ## C3 — longest-chain selection (scenario S4) -/

/-- Apply blocks in sequence, stopping at the first error. -/
def applySeq (verify : SigVerify) (c : Blockchain) (bs : List Block)
    (now : Int) : Except ChainError Unit × Blockchain :=
  match bs with
  | [] => (.ok (), c)
  | b :: rest =>
      match Blockchain.apply_block verify c b now with
      | (.ok _, c') => applySeq verify c' rest now
      | (.error e, c') => (.error e, c')

/-- The hash of the active tip (`blocks.last().unwrap().hash`). -/
def tipHash (c : Blockchain) : Bytes :=
  (c.blocks.getLast?).elim zeros32 (fun b => b.hash)

/-- A 32-byte block id filled with one byte value. -/
def mk32 (b : Nat) : Bytes := List.replicate 32 b

/-- The uniform body of every S4 block: one coinbase of area 2. -/
def c3txs : List Transaction := [.coinbase ⟨2, [109]⟩]

/-- The merkle root of `c3txs` (byte literal; `validate_block` recomputes
and compares it on every block below). -/
def c3merkle : Bytes :=
  [60, 141, 36, 235, 163, 32, 172, 108, 105, 196, 219, 38, 100, 176, 189,
   54, 139, 174, 148, 183, 122, 24, 82, 1, 249, 174, 248, 250, 0, 130,
   168, 194]

/-- An S4 block: coinbase-only body, difficulty 0 in the header (the
proof-of-work prefix check is then vacuous), distinct stored ids. -/
def c3block (height : Nat) (prev : Bytes) (ts : Int) (hsh : Bytes) : Block :=
  ⟨⟨height, prev, ts, 0, 0, c3merkle⟩, hsh, c3txs⟩

def blkA1 : Block := c3block 1 zeros32 1 (mk32 1)

def blkA2 : Block := c3block 2 (mk32 1) 2 (mk32 2)

def blkA3 : Block := c3block 3 (mk32 2) 3 (mk32 3)

def blkB1 : Block := c3block 1 zeros32 1 (mk32 11)

def blkB2 : Block := c3block 2 (mk32 11) 2 (mk32 12)

def blkB3 : Block := c3block 3 (mk32 12) 3 (mk32 13)

def blkB4 : Block := c3block 4 (mk32 13) 4 (mk32 14)

def blkB5 : Block := c3block 5 (mk32 14) 5 (mk32 15)

/-- C3, counterexample (S4).  From the fresh chain, apply three A-blocks
on the main chain, then four B-blocks sharing only the genesis.  Every
application returns `Ok`, yet after B's fourth block the active tip is
still A's — not B's tip with block count 5 as the claim demands: the code
compares the fork-walk length (4, the B-blocks alone) against the whole
active block count (4, genesis included), and `4 > 4` fails. -/
theorem C3_counterexample :
    ((fun p => exceptOk p.1 && (tipHash p.2 == mk32 3) &&
        (p.2.blocks.length == 4) && !(mk32 3 == mk32 14))
      (applySeq verifyAlways s3start [blkA1, blkA2, blkA3, blkB1, blkB2,
        blkB3, blkB4] 1000)) = true := by
  decide

/-- C3, amended: a side branch is adopted only when the number of fork
blocks walked back through the fork index (the shared ancestor excluded)
strictly exceeds the entire active block count, genesis included.  In S4
the fourth B-block leaves A active (settled by the counterexample); one
more B-block makes the walk length 5 > 4 and the chain reorganizes: the
tip becomes B's fifth block, 6 blocks are active, and the UTXO state is
rebuilt by replay (genesis triangle plus the five replayed coinbase
mints). -/
theorem C3_reorg_amended :
    ((fun p => exceptOk p.1 && (tipHash p.2 == mk32 15) &&
        (p.2.blocks.length == 6) && (p.2.state.count == 6))
      (applySeq verifyAlways s3start [blkA1, blkA2, blkA3, blkB1, blkB2,
        blkB3, blkB4, blkB5] 1000)) = true := by
  decide

/-! ## C5 — difficulty retargeting -/

/-- The retarget formula in the spec's words (§4.7.3), minus the 64-clamp
the claim asserts (the counterexample shows the code applies none):
`max(1, round(old × clamp(target / elapsed, 0.25, 4.0)))` with
`target = (2016 − 1) × 60` seconds. -/
def specRetarget (old : Nat) (elapsed : Int) : Nat :=
  max 1 (castU64 (qroundAway (qmul (qofNat old)
    (qmin (qmax (Rat.divInt (((2016 : Int) - 1) * 60) elapsed) (mkRat 1 4))
      (qofNat 4)))))

/-- C5 (amended): whenever retargeting runs (at least 2016 blocks) with
elapsed window time e > 0, the new difficulty is exactly
`max(1, round(old × clamp(target/e, 0.25, 4.0)))` — with **no** upper
clamp at 64; when e ≤ 0 the chain is left unchanged. -/
theorem C5_retarget_formula (c : Blockchain)
    (hlen : DIFFICULTY_ADJUSTMENT_WINDOW ≤ c.blocks.length) :
    (0 < retargetElapsed c →
      (c.adjust_difficulty).difficulty =
        specRetarget c.difficulty (retargetElapsed c)) ∧
    (retargetElapsed c ≤ 0 → c.adjust_difficulty = c) := by
  constructor
  · intro hpos
    unfold Blockchain.adjust_difficulty
    rw [if_neg (not_lt.mpr hlen), if_neg (not_le.mpr hpos)]
    show max (castU64 _) 1 = specRetarget _ _
    rw [Nat.max_comm]
    rfl
  · intro hnp
    unfold Blockchain.adjust_difficulty
    rw [if_neg (not_lt.mpr hlen), if_pos hnp]

/-- The S5 genesis block (timestamp 0). -/
def s5gen : Block := ⟨⟨0, zeros32, 0, 2, 0, zeros32⟩, zeros32, []⟩

/-- The S5 window blocks: block `i + 1` at timestamp `30 (i + 1)`. -/
def s5blk (i : Nat) : Block :=
  ⟨⟨i + 1, zeros32, 30 * ((i : Int) + 1), 10, 0, zeros32⟩, zeros32, []⟩

/-- The 2016 post-genesis S5 blocks. -/
def s5pre : List Block := (List.range 2016).map s5blk

/-- The S5 chain: genesis at time 0, then 2016 blocks spaced 30 seconds
apart, current difficulty 10. -/
def s5chain : Blockchain := ⟨s5gen :: s5pre, [], [], ⟨[]⟩, 10, ⟨[]⟩⟩

theorem s5pre_len : s5pre.length = 2016 := by simp [s5pre]

theorem s5_len : s5chain.blocks.length = 2017 := by
  show (s5gen :: s5pre).length = 2017
  rw [List.length_cons, s5pre_len]

theorem s5pre_get (i : Nat) (h : i < 2016) : s5pre[i]? = some (s5blk i) := by
  show ((List.range 2016).map s5blk)[i]? = some (s5blk i)
  rw [List.getElem?_map, List.getElem?_range h]
  rfl

theorem s5_elapsed : retargetElapsed s5chain = 60450 := by
  unfold retargetElapsed
  rw [s5_len]
  show (((s5gen :: s5pre).drop (2017 - DIFFICULTY_ADJUSTMENT_WINDOW)).getLast?).elim
      0 (fun b => b.header.timestamp) -
    (((s5gen :: s5pre).drop (2017 - DIFFICULTY_ADJUSTMENT_WINDOW)).head?).elim
      0 (fun b => b.header.timestamp) = 60450
  rw [show (s5gen :: s5pre).drop (2017 - DIFFICULTY_ADJUSTMENT_WINDOW) = s5pre from rfl]
  rw [List.getLast?_eq_getElem?, List.head?_eq_getElem?, s5pre_len]
  rw [s5pre_get 2015 (by omega), s5pre_get 0 (by omega)]
  rfl

theorem C5_witness :
    DIFFICULTY_ADJUSTMENT_WINDOW ≤ s5chain.blocks.length ∧
    0 < retargetElapsed s5chain ∧
    (s5chain.adjust_difficulty).difficulty = 20 := by
  have hlen : DIFFICULTY_ADJUSTMENT_WINDOW ≤ s5chain.blocks.length := by
    rw [s5_len]; decide
  have hpos : 0 < retargetElapsed s5chain := by rw [s5_elapsed]; decide
  refine ⟨hlen, hpos, ?_⟩
  rw [(C5_retarget_formula s5chain hlen).1 hpos, s5_elapsed]
  rw [show s5chain.difficulty = 10 from rfl]
  decide

/-- A window block of the 2017-block counterexample chain. -/
def c5blk (ts : Int) : Block := ⟨⟨0, zeros32, ts, 32, 0, zeros32⟩, zeros32, []⟩

/-- The first 2016 blocks of the counterexample chain, all at time 0. -/
def c5pre : List Block := (List.range 2016).map (fun _ => c5blk 0)

/-- A chain of 2017 blocks whose last 2016 spanned one second, at current
difficulty 32. -/
def c5x : Blockchain := ⟨c5pre ++ [c5blk 1], [], [], ⟨[]⟩, 32, ⟨[]⟩⟩

theorem c5pre_len : c5pre.length = 2016 := by simp [c5pre]

theorem c5x_len : c5x.blocks.length = 2017 := by
  show (c5pre ++ [c5blk 1]).length = 2017
  simp [c5pre_len]

theorem c5x_elapsed : retargetElapsed c5x = 1 := by
  unfold retargetElapsed
  rw [c5x_len]
  show ((((c5pre ++ [c5blk 1]).drop (2017 - DIFFICULTY_ADJUSTMENT_WINDOW)).getLast?).elim
      0 (fun b => b.header.timestamp)) -
    ((((c5pre ++ [c5blk 1]).drop (2017 - DIFFICULTY_ADJUSTMENT_WINDOW)).head?).elim
      0 (fun b => b.header.timestamp)) = 1
  rw [show 2017 - DIFFICULTY_ADJUSTMENT_WINDOW = 1 from rfl]
  rw [List.drop_append_of_le_length (by rw [c5pre_len]; omega)]
  rw [List.getLast?_concat]
  rw [List.head?_append_of_ne_nil]
  · rw [List.head?_drop]
    rw [show c5pre[1]? = some (c5blk 0) from by
      show ((List.range 2016).map (fun _ => c5blk 0))[1]? = some (c5blk 0)
      rw [List.getElem?_map, List.getElem?_range (by omega)]
      rfl]
    rfl
  · intro h
    have h2 := congrArg List.length h
    rw [List.length_drop, c5pre_len] at h2
    simp at h2

/-- C5, counterexample.  The claim says the retargeted difficulty is
additionally clamped to a maximum of 64.  With difficulty 32 and a
one-second window the clamp factor is 4 and the stored difficulty becomes
128 — beyond 64 (only `verify_proof_of_work` clamps later, at use). -/
theorem C5_counterexample :
    (c5x.adjust_difficulty).difficulty = 128 ∧ ¬(128 ≤ 64) := by
  refine ⟨?_, by decide⟩
  unfold Blockchain.adjust_difficulty
  rw [if_neg (by rw [c5x_len]; decide)]
  simp only [c5x_elapsed]
  rw [if_neg (by decide)]
  show max (castU64 (qroundAway (qmul (qofNat c5x.difficulty) _))) 1 = 128
  rw [show c5x.difficulty = 32 from rfl]
  decide


/-! ## C7 — eviction and the lowest declared fee -/

/-- A key bound nowhere in an association list has no lookup. -/
theorem alLookup_eq_none {α : Type} {l : List (Bytes × α)} {k : Bytes}
    (h : ∀ e ∈ l, e.1 ≠ k) : alLookup l k = none := by
  induction l with
  | nil => rfl
  | cons x xs ih =>
    obtain ⟨a, b⟩ := x
    show (if a = k then some b else alLookup xs k) = none
    rw [if_neg (h (a, b) (List.mem_cons_self _ _))]
    exact ih (fun e he => h e (List.mem_cons_of_mem _ he))

/-- Lookups pass over a prefix that misses the key. -/
theorem alLookup_append_of_none {α : Type} {l₁ l₂ : List (Bytes × α)}
    {k : Bytes} (h : alLookup l₁ k = none) :
    alLookup (l₁ ++ l₂) k = alLookup l₂ k := by
  induction l₁ with
  | nil => rfl
  | cons x xs ih =>
    obtain ⟨a, b⟩ := x
    have h' : (if a = k then some b else alLookup xs k) = none := h
    by_cases hak : a = k
    · rw [if_pos hak] at h'
      exact absurd h' (by simp)
    · rw [if_neg hak] at h'
      show (if a = k then some b else alLookup (xs ++ l₂) k) = alLookup l₂ k
      rw [if_neg hak]
      exact ih h'

/-- Inserting an absent key appends the binding. -/
theorem alInsert_append {α : Type} {l : List (Bytes × α)} {k : Bytes}
    {v : α} (h : ∀ e ∈ l, e.1 ≠ k) : alInsert l k v = l ++ [(k, v)] := by
  induction l with
  | nil => rfl
  | cons x xs ih =>
    obtain ⟨a, b⟩ := x
    show (if a = k then (k, v) :: xs else (a, b) :: alInsert xs k v) =
      (a, b) :: (xs ++ [(k, v)])
    rw [if_neg (h (a, b) (List.mem_cons_self _ _)),
      ih (fun e he => h e (List.mem_cons_of_mem _ he))]

/-- The eviction scan never moves off an accumulator no entry undercuts. -/
theorem scanConst (v : Nat) (s : Option Bytes)
    (l : List (Bytes × Transaction))
    (h : ∀ e ∈ l, ¬ feeForEvict e.2 < v) :
    l.foldl
      (fun acc e =>
        if feeForEvict e.2 < acc.1 then (feeForEvict e.2, some e.1) else acc)
      (v, s) = (v, s) := by
  induction l with
  | nil => rfl
  | cons x xs ih =>
    rw [List.foldl_cons]
    rw [show (if feeForEvict x.2 < (v, s).1 then (feeForEvict x.2, some x.1)
        else (v, s)) = (v, s) from if_neg (h x (List.mem_cons_self _ _))]
    exact ih (fun e he => h e (List.mem_cons_of_mem _ he))

/-- Synthetic map keys for the filler entries of the big pools (first byte
255, which no key used by the distinguished entries shares). -/
def fakeKey (i : Nat) : Bytes := [255, i / 256 % 256, i % 256]

/-- Distinct sender addresses for the filler entries (first byte 102). -/
def fakeSender (i : Nat) : Bytes := [102, i / 256 % 256, i % 256]

/-- The C7 Subdivision: declared fee 100 (but `feeForEvict` 0). -/
def c7sub : SubdivisionTx := ⟨[1], [], [1], 100, 0, some [], some []⟩

/-- The C7 resident Transfer: declared fee 5, the pool's true minimum. -/
def c7t : TransferTx := ⟨[3], [4], [2], 5, 0, some [], some [], none⟩

/-- The C7 incoming Transfer: fee 9, fresh sender. -/
def c7new : TransferTx := ⟨[5], [6], [9, 9, 9], 9, 0, some [], some [], none⟩

/-- C7 filler Transfers: fee 7 each, distinct senders and nonces. -/
def c7filler (i : Nat) : TransferTx :=
  ⟨[7], [8], fakeSender i, 7, i, some [], some [], none⟩

/-- The Subdivision's pool key (its transaction hash). -/
def c7subKey : Bytes := (Transaction.subdivision c7sub).hash

/-- The resident Transfer's pool key. -/
def c7tKey : Bytes := (Transaction.transfer c7t).hash

/-- The incoming Transfer's pool key. -/
def c7newKey : Bytes := (Transaction.transfer c7new).hash

/-- 9998 filler entries. -/
def c7fill : List (Bytes × Transaction) :=
  (List.range 9998).map (fun i => (fakeKey i, .transfer (c7filler i)))

/-- The full C7 pool: exactly `MAX_TRANSACTIONS` entries. -/
def c7pool : Mempool :=
  ⟨(c7subKey, .subdivision c7sub) :: (c7tKey, .transfer c7t) :: c7fill⟩

/-- The pool after `add_transaction`: the Subdivision is gone, the fee-5
Transfer stays, the new Transfer is appended. -/
def c7after : Mempool :=
  ⟨((c7tKey, .transfer c7t) :: c7fill) ++ [(c7newKey, .transfer c7new)]⟩

theorem c7fill_key_ne {i : Nat} {k : Bytes} (hk : k.head? ≠ some 255) :
    fakeKey i ≠ k := by
  intro h
  exact hk (by rw [← h]; rfl)

theorem c7fill_lookup (k : Bytes) (hk : k.head? ≠ some 255) :
    alLookup c7fill k = none := by
  apply alLookup_eq_none
  intro e he
  obtain ⟨i, _, rfl⟩ := List.mem_map.mp he
  exact c7fill_key_ne hk

theorem c7pool_len : c7pool.transactions.length = 10000 := by
  show ((c7subKey, Transaction.subdivision c7sub) ::
    (c7tKey, Transaction.transfer c7t) :: c7fill).length = 10000
  rw [List.length_cons, List.length_cons,
    show c7fill.length = 9998 from by simp [c7fill]]

theorem c7pool_lookup_sub :
    c7pool.get_transaction c7subKey = some (.subdivision c7sub) := by
  show (if c7subKey = c7subKey then some (Transaction.subdivision c7sub)
      else alLookup ((c7tKey, Transaction.transfer c7t) :: c7fill) c7subKey) =
    some (Transaction.subdivision c7sub)
  rw [if_pos rfl]

theorem c7pool_lookup_t :
    c7pool.get_transaction c7tKey = some (.transfer c7t) := by
  show (if c7subKey = c7tKey then some (Transaction.subdivision c7sub)
      else alLookup ((c7tKey, Transaction.transfer c7t) :: c7fill) c7tKey) =
    some (Transaction.transfer c7t)
  rw [if_neg (by decide)]
  show (if c7tKey = c7tKey then some (Transaction.transfer c7t)
      else alLookup c7fill c7tKey) = some (Transaction.transfer c7t)
  rw [if_pos rfl]

theorem c7pool_lookup_new : alLookup c7pool.transactions c7newKey = none := by
  show (if c7subKey = c7newKey then some (Transaction.subdivision c7sub)
      else alLookup ((c7tKey, Transaction.transfer c7t) :: c7fill) c7newKey) =
    none
  rw [if_neg (by decide)]
  show (if c7tKey = c7newKey then some (Transaction.transfer c7t)
      else alLookup c7fill c7newKey) = none
  rw [if_neg (by decide)]
  exact c7fill_lookup c7newKey (by decide)

theorem c7quota :
    List.filter (fun e => senderMatches c7new.sender e.2)
      c7pool.transactions = [] := by
  rw [List.filter_eq_nil_iff]
  intro e he
  rcases List.mem_cons.mp he with rfl | he
  · decide
  rcases List.mem_cons.mp he with rfl | he
  · decide
  obtain ⟨i, _, rfl⟩ := List.mem_map.mp he
  show ¬ ((fakeSender i == [9, 9, 9]) = true)
  intro hb
  exact absurd (congrArg List.head? (eq_of_beq hb)) (by simp [fakeSender])

theorem c7evict :
    c7pool.evict_lowest_fee_transaction =
      ⟨(c7tKey, Transaction.transfer c7t) :: c7fill⟩ := by
  unfold Mempool.evict_lowest_fee_transaction
  rw [if_neg (show ¬ (c7pool.transactions = []) from by simp [c7pool])]
  rw [show c7pool.transactions = (c7subKey, Transaction.subdivision c7sub) ::
    (c7tKey, Transaction.transfer c7t) :: c7fill from rfl]
  rw [List.foldl_cons]
  rw [show (if feeForEvict (c7subKey, Transaction.subdivision c7sub).2 <
        ((2 ^ 64 - 1 : Nat), (none : Option Bytes)).1 then
        (feeForEvict (c7subKey, Transaction.subdivision c7sub).2,
          some (c7subKey, Transaction.subdivision c7sub).1)
      else ((2 ^ 64 - 1 : Nat), (none : Option Bytes))) =
      ((0 : Nat), some c7subKey) from by decide]
  rw [scanConst 0 (some c7subKey) _ (fun e _ => Nat.not_lt_zero _)]
  show Mempool.mk (alRemove ((c7subKey, Transaction.subdivision c7sub) ::
    (c7tKey, Transaction.transfer c7t) :: c7fill) c7subKey) = _
  rw [show alRemove ((c7subKey, Transaction.subdivision c7sub) ::
      (c7tKey, Transaction.transfer c7t) :: c7fill) c7subKey =
      (c7tKey, Transaction.transfer c7t) :: c7fill from by
    show (if c7subKey = c7subKey then (c7tKey, Transaction.transfer c7t) ::
      c7fill else _) = _
    rw [if_pos rfl]]

theorem c7insert :
    c7pool.insertStep (Transaction.hash (Transaction.transfer c7new))
      (Transaction.transfer c7new) = c7after := by
  unfold Mempool.insertStep
  simp only [c7pool_len]
  rw [if_pos (show MAX_TRANSACTIONS ≤ 10000 by decide)]
  rw [c7evict]
  show Mempool.mk (alInsert ((c7tKey, Transaction.transfer c7t) :: c7fill)
    (Transaction.hash (Transaction.transfer c7new))
    (Transaction.transfer c7new)) = c7after
  rw [alInsert_append (by
    intro e he
    rcases List.mem_cons.mp he with rfl | he
    · decide
    obtain ⟨i, _, rfl⟩ := List.mem_map.mp he
    exact c7fill_key_ne (by decide))]
  rfl

theorem c7add :
    Mempool.add_transaction verifyAlways c7pool (Transaction.transfer c7new) =
      .ok c7after := by
  have h1 : alContains c7pool.transactions
      (Transaction.hash (Transaction.transfer c7new)) = false := by
    show (alLookup c7pool.transactions c7newKey).isSome = false
    rw [c7pool_lookup_new]
    rfl
  simp only [Mempool.add_transaction]
  rw [h1, if_neg Bool.false_ne_true]
  show (if MAX_PER_ADDRESS ≤
      (List.filter (fun e => senderMatches c7new.sender e.2)
        c7pool.transactions).length
    then Except.error ChainError.InvalidTransaction
    else Except.ok (c7pool.insertStep
      (Transaction.hash (Transaction.transfer c7new))
      (Transaction.transfer c7new))) = Except.ok c7after
  rw [c7quota, if_neg (by decide), c7insert]

theorem c7after_lookup_sub : c7after.get_transaction c7subKey = none := by
  show (if c7tKey = c7subKey then some (Transaction.transfer c7t)
      else alLookup (c7fill ++ [(c7newKey, Transaction.transfer c7new)])
        c7subKey) = none
  rw [if_neg (by decide)]
  rw [alLookup_append_of_none (c7fill_lookup c7subKey (by decide))]
  show (if c7newKey = c7subKey then some (Transaction.transfer c7new)
      else none) = none
  rw [if_neg (by decide)]

theorem c7after_lookup_t :
    c7after.get_transaction c7tKey = some (.transfer c7t) := by
  show (if c7tKey = c7tKey then some (Transaction.transfer c7t)
      else alLookup (c7fill ++ [(c7newKey, Transaction.transfer c7new)])
        c7tKey) = some (Transaction.transfer c7t)
  rw [if_pos rfl]

/-- C7, counterexample: at capacity, `add_transaction` admits a fee-9
Transfer and evicts the Subdivision whose declared fee is 100, while a
fee-5 Transfer stays in the pool — the evicted entry's declared fee is not
minimal (the eviction scan prices every Subdivision at 0). -/
theorem C7_counterexample :
    Mempool.add_transaction verifyAlways c7pool (Transaction.transfer c7new) =
      .ok c7after ∧
    c7pool.len = MAX_TRANSACTIONS ∧
    c7pool.get_transaction c7subKey = some (.subdivision c7sub) ∧
    c7sub.fee = 100 ∧
    c7pool.get_transaction c7tKey = some (.transfer c7t) ∧
    c7t.fee = 5 ∧
    c7after.get_transaction c7subKey = none ∧
    c7after.get_transaction c7tKey = some (.transfer c7t) :=
  ⟨c7add, by show c7pool.transactions.length = MAX_TRANSACTIONS; rw [c7pool_len]; rfl,
   c7pool_lookup_sub, rfl, c7pool_lookup_t, rfl,
   c7after_lookup_sub, c7after_lookup_t⟩

/-- A key bound in the list has a successful lookup. -/
theorem alLookup_isSome_of_mem {α : Type} {l : List (Bytes × α)} {k : Bytes}
    {v : α} (h : (k, v) ∈ l) : (alLookup l k).isSome = true := by
  induction l with
  | nil => exact absurd h (List.not_mem_nil _)
  | cons x xs ih =>
    obtain ⟨a, b⟩ := x
    show (if a = k then some b else alLookup xs k).isSome = true
    by_cases hak : a = k
    · rw [if_pos hak]
      rfl
    · rw [if_neg hak]
      rcases List.mem_cons.mp h with heq | hmem
      · exact absurd (congrArg Prod.fst heq).symm hak
      · exact ih hmem

/-- Removing one key leaves lookups of the others unchanged. -/
theorem alLookup_alRemove_ne {α : Type} {l : List (Bytes × α)} {k₀ k : Bytes}
    (hne : k₀ ≠ k) : alLookup (alRemove l k₀) k = alLookup l k := by
  induction l with
  | nil => rfl
  | cons x xs ih =>
    obtain ⟨a, b⟩ := x
    by_cases hak : a = k₀
    · rw [show alRemove ((a, b) :: xs) k₀ = xs from by
        show (if a = k₀ then xs else (a, b) :: alRemove xs k₀) = xs
        rw [if_pos hak]]
      show alLookup xs k = (if a = k then some b else alLookup xs k)
      rw [if_neg (fun h => hne (by rw [← hak]; exact h))]
    · rw [show alRemove ((a, b) :: xs) k₀ = (a, b) :: alRemove xs k₀ from by
        show (if a = k₀ then xs else (a, b) :: alRemove xs k₀) = _
        rw [if_neg hak]]
      show (if a = k then some b else alLookup (alRemove xs k₀) k) =
        (if a = k then some b else alLookup xs k)
      by_cases hk : a = k
      · rw [if_pos hk, if_pos hk]
      · rw [if_neg hk, if_neg hk]
        exact ih

/-- With pairwise-distinct keys (every `HashMap` snapshot), a key
determines its entry. -/
theorem keys_nodup_unique {α : Type} {l : List (Bytes × α)}
    (hnd : (l.map Prod.fst).Nodup) {k : Bytes} {v : α} {e : Bytes × α}
    (hkv : (k, v) ∈ l) (he : e ∈ l) (hek : e.1 = k) : e = (k, v) :=
  List.inj_on_of_nodup_map hnd he hkv (by rw [hek])

/-- What the eviction scan computes: the running minimum never rises,
no scanned entry is priced below the result, and the result is either
the untouched initial accumulator or the price and key of some entry. -/
theorem scanSpec (l : List (Bytes × Transaction)) (v₀ : Nat)
    (s₀ : Option Bytes) :
    (∀ e ∈ l,
      (l.foldl (fun acc e =>
          if feeForEvict e.2 < acc.1 then (feeForEvict e.2, some e.1) else acc)
        (v₀, s₀)).1 ≤ feeForEvict e.2) ∧
    (l.foldl (fun acc e =>
        if feeForEvict e.2 < acc.1 then (feeForEvict e.2, some e.1) else acc)
      (v₀, s₀)).1 ≤ v₀ ∧
    (l.foldl (fun acc e =>
        if feeForEvict e.2 < acc.1 then (feeForEvict e.2, some e.1) else acc)
      (v₀, s₀) = (v₀, s₀) ∨
      ∃ e ∈ l,
        l.foldl (fun acc e =>
            if feeForEvict e.2 < acc.1 then (feeForEvict e.2, some e.1)
            else acc)
          (v₀, s₀) = (feeForEvict e.2, some e.1)) := by
  induction l generalizing v₀ s₀ with
  | nil =>
    exact ⟨fun e he => absurd he (List.not_mem_nil _), le_refl _, Or.inl rfl⟩
  | cons x xs ih =>
    have hstep : ∀ acc : Nat × Option Bytes,
        List.foldl (fun acc e =>
            if feeForEvict e.2 < acc.1 then (feeForEvict e.2, some e.1)
            else acc)
          acc (x :: xs) =
        List.foldl (fun acc e =>
            if feeForEvict e.2 < acc.1 then (feeForEvict e.2, some e.1)
            else acc)
          (if feeForEvict x.2 < acc.1 then (feeForEvict x.2, some x.1)
            else acc) xs :=
      fun acc => List.foldl_cons _ _
    by_cases hx : feeForEvict x.2 < v₀
    · have hacc : (if feeForEvict x.2 < (v₀, s₀).1
          then ((feeForEvict x.2 : Nat), some x.1) else (v₀, s₀)) =
          (feeForEvict x.2, some x.1) := if_pos hx
      rw [hstep, hacc]
      obtain ⟨ih1, ih2, ih3⟩ := ih (feeForEvict x.2) (some x.1)
      refine ⟨?_, le_trans ih2 (le_of_lt hx), ?_⟩
      · intro e he
        rcases List.mem_cons.mp he with rfl | hmem
        · exact ih2
        · exact ih1 e hmem
      · rcases ih3 with heq | ⟨e, he, heq⟩
        · exact Or.inr ⟨x, List.mem_cons_self _ _, heq⟩
        · exact Or.inr ⟨e, List.mem_cons_of_mem _ he, heq⟩
    · have hacc : (if feeForEvict x.2 < (v₀, s₀).1
          then ((feeForEvict x.2 : Nat), some x.1) else (v₀, s₀)) =
          (v₀, s₀) := if_neg hx
      rw [hstep, hacc]
      obtain ⟨ih1, ih2, ih3⟩ := ih v₀ s₀
      refine ⟨?_, ih2, ?_⟩
      · intro e he
        rcases List.mem_cons.mp he with rfl | hmem
        · exact le_trans ih2 (Nat.not_lt.mp hx)
        · exact ih1 e hmem
      · rcases ih3 with heq | ⟨e, he, heq⟩
        · exact Or.inl heq
        · exact Or.inr ⟨e, List.mem_cons_of_mem _ he, heq⟩

/-- `evict_lowest_fee_transaction` on a non-empty pool, with its scan
exposed. -/
theorem evict_eq (m : Mempool) (hne : m.transactions ≠ []) :
    m.evict_lowest_fee_transaction =
      match (m.transactions.foldl (fun acc e =>
          if feeForEvict e.2 < acc.1 then (feeForEvict e.2, some e.1) else acc)
        ((2 ^ 64 - 1 : Nat), (none : Option Bytes))).2 with
      | some k => ⟨alRemove m.transactions k⟩
      | none => m := by
  unfold Mempool.evict_lowest_fee_transaction
  rw [if_neg hne]

/-- C7 (amended): an entry that eviction removes minimises `feeForEvict`
— the declared fee for a Transfer, but 0 for a Subdivision (and a
Coinbase) — over the whole pool; a Subdivision's declared fee is ignored
by the eviction scan. -/
theorem C7_evicted_entry_minimizes_feeForEvict
    (m : Mempool) (k : Bytes) (v : Transaction)
    (hmem : (k, v) ∈ m.transactions)
    (hnd : (m.transactions.map Prod.fst).Nodup)
    (hgone : alLookup (m.evict_lowest_fee_transaction).transactions k = none) :
    ∀ e ∈ m.transactions, feeForEvict v ≤ feeForEvict e.2 := by
  have hne : m.transactions ≠ [] := by
    intro h
    rw [h] at hmem
    exact absurd hmem (List.not_mem_nil _)
  obtain ⟨hmin, _, hform⟩ :=
    scanSpec m.transactions (2 ^ 64 - 1) (none : Option Bytes)
  rcases hform with hres | ⟨e₀, he₀, hres⟩
  · rw [evict_eq m hne, hres] at hgone
    have hg2 : alLookup m.transactions k = none := hgone
    exact absurd (alLookup_isSome_of_mem hmem) (by rw [hg2]; simp)
  · rw [evict_eq m hne, hres] at hgone
    have hg2 : alLookup (alRemove m.transactions e₀.1) k = none := hgone
    by_cases hk : e₀.1 = k
    · have heq : e₀ = (k, v) := keys_nodup_unique hnd hmem he₀ hk
      intro e he
      have h3 := hmin e he
      rw [hres, heq] at h3
      exact h3
    · rw [alLookup_alRemove_ne hk] at hg2
      exact absurd (alLookup_isSome_of_mem hmem) (by rw [hg2]; simp)

/-- A two-entry pool exercising the amended eviction theorem. -/
def c7wpool : Mempool :=
  ⟨[(c7subKey, .subdivision c7sub), (c7tKey, .transfer c7t)]⟩

theorem C7_witness :
    ((c7subKey, Transaction.subdivision c7sub) ∈ c7wpool.transactions ∧
     (c7wpool.transactions.map Prod.fst).Nodup ∧
     alLookup (c7wpool.evict_lowest_fee_transaction).transactions c7subKey =
       none) ∧
    ∀ e ∈ c7wpool.transactions,
      feeForEvict (Transaction.subdivision c7sub) ≤ feeForEvict e.2 :=
  ⟨⟨by decide, by decide, by decide⟩,
   C7_evicted_entry_minimizes_feeForEvict c7wpool c7subKey
     (Transaction.subdivision c7sub) (by decide) (by decide) (by decide)⟩

/-! ## C8 — the mempool size bound -/

/-- C8 filler Transfers: every declared fee is `u64::MAX`. -/
def c8filler (i : Nat) : TransferTx :=
  ⟨[7], [8], fakeSender i, 2 ^ 64 - 1, i, some [], some [], none⟩

/-- 10000 filler entries, distinct keys and senders. -/
def c8fill : List (Bytes × Transaction) :=
  (List.range 10000).map (fun i => (fakeKey i, .transfer (c8filler i)))

/-- A pool at exactly `MAX_TRANSACTIONS`, every fee `u64::MAX`. -/
def c8pool : Mempool := ⟨c8fill⟩

/-- One more Transfer at fee `u64::MAX`, fresh sender and hash. -/
def c8new : TransferTx :=
  ⟨[5], [6], [9, 9, 8], 2 ^ 64 - 1, 0, some [], some [], none⟩

/-- The incoming Transfer's key. -/
def c8newKey : Bytes := (Transaction.transfer c8new).hash

/-- The pool after the overfull admission: 10001 entries. -/
def c8after : Mempool := ⟨c8fill ++ [(c8newKey, .transfer c8new)]⟩
theorem c8fill_lookup (k : Bytes) (hk : k.head? ≠ some 255) :
    alLookup c8fill k = none := by
  apply alLookup_eq_none
  intro e he
  obtain ⟨i, _, rfl⟩ := List.mem_map.mp he
  exact c7fill_key_ne hk

/-- Reading the single field of a `Mempool` literal. -/
theorem mempoolTxMk (l : List (Bytes × Transaction)) :
    (Mempool.mk l).transactions = l := rfl

theorem c8pool_tx : c8pool.transactions = c8fill := by
  rw [show c8pool = Mempool.mk c8fill from rfl, mempoolTxMk]

theorem c8fill_len : c8fill.length = 10000 := by
  rw [show c8fill = (List.range 10000).map
    (fun i => (fakeKey i, Transaction.transfer (c8filler i))) from rfl,
    List.length_map, List.length_range]

theorem c8pool_len : c8pool.transactions.length = 10000 := by
  rw [c8pool_tx, c8fill_len]

theorem c8pool_ne_nil : ¬ (c8pool.transactions = []) := by
  rw [c8pool_tx]
  intro h
  have h2 := congrArg List.length h
  rw [c8fill_len] at h2
  exact absurd h2 (by decide)

theorem c8evict : c8pool.evict_lowest_fee_transaction = c8pool := by
  unfold Mempool.evict_lowest_fee_transaction
  rw [if_neg c8pool_ne_nil]
  rw [scanConst (2 ^ 64 - 1) none c8pool.transactions (by
    intro e he
    rw [c8pool_tx] at he
    obtain ⟨i, _, rfl⟩ := List.mem_map.mp he
    exact Nat.lt_irrefl _)]

theorem c8quota :
    List.filter (fun e => senderMatches c8new.sender e.2)
      c8pool.transactions = [] := by
  rw [c8pool_tx, List.filter_eq_nil_iff]
  intro e he
  obtain ⟨i, _, rfl⟩ := List.mem_map.mp he
  show ¬ ((fakeSender i == [9, 9, 8]) = true)
  intro hb
  exact absurd (congrArg List.head? (eq_of_beq hb)) (by simp [fakeSender])

theorem c8insert :
    c8pool.insertStep (Transaction.hash (Transaction.transfer c8new))
      (Transaction.transfer c8new) = c8after := by
  unfold Mempool.insertStep
  simp only [c8pool_len]
  rw [if_pos (show MAX_TRANSACTIONS ≤ 10000 by decide)]
  rw [c8evict, c8pool_tx]
  rw [alInsert_append (by
    intro e he
    obtain ⟨i, _, rfl⟩ := List.mem_map.mp he
    exact c7fill_key_ne (by decide))]
  rw [show c8after = Mempool.mk
    (c8fill ++ [(c8newKey, Transaction.transfer c8new)]) from rfl]
  rw [show (Transaction.hash (Transaction.transfer c8new)) = c8newKey from rfl]

theorem c8add :
    Mempool.add_transaction verifyAlways c8pool (Transaction.transfer c8new) =
      .ok c8after := by
  have h1 : alContains c8pool.transactions
      (Transaction.hash (Transaction.transfer c8new)) = false := by
    unfold alContains
    rw [c8pool_tx, c8fill_lookup _ (by decide)]
    rfl
  simp only [Mempool.add_transaction]
  rw [h1, if_neg Bool.false_ne_true]
  show (if MAX_PER_ADDRESS ≤
      (List.filter (fun e => senderMatches c8new.sender e.2)
        c8pool.transactions).length
    then Except.error ChainError.InvalidTransaction
    else Except.ok (c8pool.insertStep
      (Transaction.hash (Transaction.transfer c8new))
      (Transaction.transfer c8new))) = Except.ok c8after
  rw [c8quota, if_neg (by decide), c8insert]

theorem c8after_tx :
    c8after.transactions = c8fill ++ [(c8newKey, Transaction.transfer c8new)] := by
  rw [show c8after = Mempool.mk
    (c8fill ++ [(c8newKey, Transaction.transfer c8new)]) from rfl, mempoolTxMk]

/-- C8, counterexample: the `MAX_TRANSACTIONS` bound is violated.  At
capacity with every declared fee equal to `u64::MAX`, the eviction scan's
strict comparison against its `u64::MAX` sentinel never fires, nothing is
evicted, and the admission still inserts — 10001 entries. -/
theorem C8_counterexample :
    Mempool.add_transaction verifyAlways c8pool (Transaction.transfer c8new) =
      .ok c8after ∧
    c8pool.len = MAX_TRANSACTIONS ∧
    c8after.len = MAX_TRANSACTIONS + 1 := by
  refine ⟨c8add, ?_, ?_⟩
  · show c8pool.transactions.length = MAX_TRANSACTIONS
    rw [c8pool_len]
    rfl
  · show c8after.transactions.length = MAX_TRANSACTIONS + 1
    rw [c8after_tx, List.length_append, c8fill_len]
    rfl

/-! ## C9 — block reward and cumulative supply -/

/-- The reward never exceeds the initial 1000. -/
theorem reward_le_1000 (i : Nat) :
    Blockchain.calculate_block_reward i ≤ 1000 := by
  simp only [Blockchain.calculate_block_reward, INITIAL_MINING_REWARD,
    MAX_HALVINGS, REWARD_HALVING_INTERVAL]
  split
  · exact Nat.zero_le _
  · rw [Nat.shiftRight_eq_div_pow]
    exact Nat.div_le_self _ _

/-- `calculate_block_reward` inside one halving era. -/
theorem reward_in_era (i e : Nat) (hl : e * 210000 ≤ i)
    (hr : i < (e + 1) * 210000) (he : e < 64) :
    Blockchain.calculate_block_reward i = 1000 >>> e := by
  simp only [Blockchain.calculate_block_reward, INITIAL_MINING_REWARD,
    MAX_HALVINGS, REWARD_HALVING_INTERVAL]
  rw [Nat.div_eq_of_lt_le hl hr, if_neg (by omega)]

/-- From height 2 100 000 on the reward is zero (1000 >> 10 = 0). -/
theorem reward_late {i : Nat} (h : 2100000 ≤ i) :
    Blockchain.calculate_block_reward i = 0 := by
  simp only [Blockchain.calculate_block_reward, INITIAL_MINING_REWARD,
    MAX_HALVINGS, REWARD_HALVING_INTERVAL]
  have h10 : 10 ≤ i / 210000 :=
    (Nat.le_div_iff_mul_le (by omega)).mpr (by omega)
  by_cases h64 : 64 ≤ i / 210000
  · rw [if_pos h64]
  · rw [if_neg h64, Nat.shiftRight_eq_div_pow]
    exact Nat.div_eq_of_lt
      (lt_of_lt_of_le (by norm_num) (Nat.pow_le_pow_right (by norm_num) h10))

/-- Summing a constant reward over an interval of heights. -/
theorem sum_reward_const (a b r : Nat)
    (h : ∀ i ∈ Finset.Ioc a b, Blockchain.calculate_block_reward i = r) :
    ∑ i ∈ Finset.Ioc a b, Blockchain.calculate_block_reward i = (b - a) * r := by
  rw [Finset.sum_congr rfl h, Finset.sum_const, Nat.card_Ioc, smul_eq_mul]

/-- The all-time minted total: 418 739 000. -/
theorem sum_reward_all :
    ∑ i ∈ Finset.Ioc 0 2099999, Blockchain.calculate_block_reward i =
      418739000 := by
  have era : ∀ a b e : Nat, e < 64 → e * 210000 ≤ a + 1 →
      b ≤ (e + 1) * 210000 - 1 →
      (∀ i ∈ Finset.Ioc a b, Blockchain.calculate_block_reward i =
        1000 >>> e) := by
    intro a b e he hl hr i hi
    have h2 := Finset.mem_Ioc.mp hi
    exact reward_in_era i e (by omega) (by omega) he
  rw [← Finset.sum_Ioc_consecutive _
    (show (0 : ℕ) ≤ 1889999 by omega) (show (1889999 : ℕ) ≤ 2099999 by omega)]
  rw [← Finset.sum_Ioc_consecutive _
    (show (0 : ℕ) ≤ 1679999 by omega) (show (1679999 : ℕ) ≤ 1889999 by omega)]
  rw [← Finset.sum_Ioc_consecutive _
    (show (0 : ℕ) ≤ 1469999 by omega) (show (1469999 : ℕ) ≤ 1679999 by omega)]
  rw [← Finset.sum_Ioc_consecutive _
    (show (0 : ℕ) ≤ 1259999 by omega) (show (1259999 : ℕ) ≤ 1469999 by omega)]
  rw [← Finset.sum_Ioc_consecutive _
    (show (0 : ℕ) ≤ 1049999 by omega) (show (1049999 : ℕ) ≤ 1259999 by omega)]
  rw [← Finset.sum_Ioc_consecutive _
    (show (0 : ℕ) ≤ 839999 by omega) (show (839999 : ℕ) ≤ 1049999 by omega)]
  rw [← Finset.sum_Ioc_consecutive _
    (show (0 : ℕ) ≤ 629999 by omega) (show (629999 : ℕ) ≤ 839999 by omega)]
  rw [← Finset.sum_Ioc_consecutive _
    (show (0 : ℕ) ≤ 419999 by omega) (show (419999 : ℕ) ≤ 629999 by omega)]
  rw [← Finset.sum_Ioc_consecutive _
    (show (0 : ℕ) ≤ 209999 by omega) (show (209999 : ℕ) ≤ 419999 by omega)]
  rw [sum_reward_const 0 209999 (1000 >>> 0) (era 0 209999 0 (by omega)
    (by omega) (by omega))]
  rw [sum_reward_const 209999 419999 (1000 >>> 1) (era 209999 419999 1
    (by omega) (by omega) (by omega))]
  rw [sum_reward_const 419999 629999 (1000 >>> 2) (era 419999 629999 2
    (by omega) (by omega) (by omega))]
  rw [sum_reward_const 629999 839999 (1000 >>> 3) (era 629999 839999 3
    (by omega) (by omega) (by omega))]
  rw [sum_reward_const 839999 1049999 (1000 >>> 4) (era 839999 1049999 4
    (by omega) (by omega) (by omega))]
  rw [sum_reward_const 1049999 1259999 (1000 >>> 5) (era 1049999 1259999 5
    (by omega) (by omega) (by omega))]
  rw [sum_reward_const 1259999 1469999 (1000 >>> 6) (era 1259999 1469999 6
    (by omega) (by omega) (by omega))]
  rw [sum_reward_const 1469999 1679999 (1000 >>> 7) (era 1469999 1679999 7
    (by omega) (by omega) (by omega))]
  rw [sum_reward_const 1679999 1889999 (1000 >>> 8) (era 1679999 1889999 8
    (by omega) (by omega) (by omega))]
  rw [sum_reward_const 1889999 2099999 (1000 >>> 9) (era 1889999 2099999 9
    (by omega) (by omega) (by omega))]
  decide

/-- Every cumulative reward sum is bounded by the all-time total. -/
theorem sum_reward_le (h : Nat) :
    ∑ i ∈ Finset.Ioc 0 h, Blockchain.calculate_block_reward i ≤
      418739000 := by
  by_cases hle : h ≤ 2099999
  · exact le_of_le_of_eq
      (Finset.sum_le_sum_of_subset (Finset.Ioc_subset_Ioc_right hle))
      sum_reward_all
  · rw [← Finset.sum_Ioc_consecutive _
      (show (0 : ℕ) ≤ 2099999 by omega) (show (2099999 : ℕ) ≤ h by omega)]
    rw [sum_reward_all, Finset.sum_eq_zero (fun i hi =>
      reward_late (by have := Finset.mem_Ioc.mp hi; omega))]
    omega

/-- The supply loop computes the plain sum: saturation never fires. -/
theorem supply_eq_sum (h : Nat) :
    Blockchain.calculate_current_supply h =
      ∑ i ∈ Finset.Ioc 0 h, Blockchain.calculate_block_reward i := by
  induction h with
  | zero => simp [Blockchain.calculate_current_supply]
  | succ n ih =>
    show satAdd64 (Blockchain.calculate_current_supply n)
      (Blockchain.calculate_block_reward (n + 1)) = _
    rw [ih, Finset.sum_Ioc_succ_top (Nat.zero_le n)]
    unfold satAdd64
    exact min_eq_left (by
      have h1 := sum_reward_le n
      have h2 := reward_le_1000 (n + 1)
      omega)

/-- C9: the reward follows the halving formula; the supply at any height
is exactly the sum of the per-height rewards from 1 to that height (the
saturating addition never saturates); and it never exceeds `MAX_SUPPLY`. -/
theorem C9_supply_formula_and_cap (h : Nat) :
    (∀ i : Nat, Blockchain.calculate_block_reward i =
      if i / 210000 < 64 then 1000 >>> (i / 210000) else 0) ∧
    Blockchain.calculate_current_supply h =
      ∑ i ∈ Finset.Icc 1 h, Blockchain.calculate_block_reward i ∧
    Blockchain.calculate_current_supply h ≤ MAX_SUPPLY := by
  refine ⟨?_, ?_, ?_⟩
  · intro i
    simp only [Blockchain.calculate_block_reward, INITIAL_MINING_REWARD,
      MAX_HALVINGS, REWARD_HALVING_INTERVAL]
    by_cases hc : 64 ≤ i / 210000
    · rw [if_pos hc, if_neg (by omega)]
    · rw [if_neg hc, if_pos (by omega)]
  · rw [Nat.Icc_succ_left 0 h]
    exact supply_eq_sum h
  · rw [supply_eq_sum h]
    exact le_trans (sum_reward_le h)
      (show (418739000 : Nat) ≤ MAX_SUPPLY by decide)

/-! ## C10 — the triangle id under vertex permutation -/

/-- Inverting one comparison step of `bytesLe`. -/
theorem bytesLe_inv {p q : Nat} {ps qs : Bytes}
    (h : (if p < q then true else if q < p then false else bytesLe ps qs) =
      true) :
    p < q ∨ (p = q ∧ bytesLe ps qs = true) := by
  by_cases h1 : p < q
  · exact Or.inl h1
  · rw [if_neg h1] at h
    by_cases h2 : q < p
    · rw [if_pos h2] at h
      exact absurd h (by simp)
    · rw [if_neg h2] at h
      exact Or.inr ⟨by omega, h⟩

/-- `bytesLe` is total. -/
theorem bytesLe_total : ∀ x y : Bytes,
    bytesLe x y = true ∨ bytesLe y x = true
  | [], [] => Or.inl rfl
  | [], _ :: _ => Or.inl rfl
  | _ :: _, [] => Or.inr rfl
  | a :: as, b :: bs => by
    simp only [bytesLe]
    rcases Nat.lt_trichotomy a b with h | h | h
    · rw [if_pos h]
      exact Or.inl rfl
    · subst h
      rw [if_neg (lt_irrefl a), if_neg (lt_irrefl a), if_neg (lt_irrefl a),
        if_neg (lt_irrefl a)]
      exact bytesLe_total as bs
    · refine Or.inr ?_
      rw [if_pos h]

/-- `bytesLe` is transitive. -/
theorem bytesLe_trans : ∀ x y z : Bytes,
    bytesLe x y = true → bytesLe y z = true → bytesLe x z = true
  | [], _, _, _, _ => rfl
  | _ :: _, [], _, h1, _ => by simp [bytesLe] at h1
  | _ :: _, _ :: _, [], _, h2 => by simp [bytesLe] at h2
  | a :: as, b :: bs, c :: cs, h1, h2 => by
    simp only [bytesLe] at h1 h2 ⊢
    rcases bytesLe_inv h1 with hab | ⟨hab, hrec1⟩
    · rcases bytesLe_inv h2 with hbc | ⟨hbc, _⟩ <;>
        rw [if_pos (show a < c by omega)]
    · rcases bytesLe_inv h2 with hbc | ⟨hbc, hrec2⟩
      · rw [if_pos (show a < c by omega)]
      · have hac : a = c := by omega
        subst hac
        rw [if_neg (lt_irrefl a), if_neg (lt_irrefl a)]
        exact bytesLe_trans as bs cs hrec1 hrec2

/-- `bytesLe` is antisymmetric. -/
theorem bytesLe_antisymm : ∀ x y : Bytes,
    bytesLe x y = true → bytesLe y x = true → x = y
  | [], [], _, _ => rfl
  | [], _ :: _, _, h2 => by simp [bytesLe] at h2
  | _ :: _, [], h1, _ => by simp [bytesLe] at h1
  | a :: as, b :: bs, h1, h2 => by
    simp only [bytesLe] at h1 h2
    rcases bytesLe_inv h1 with hab | ⟨hab, hrec1⟩
    · rcases bytesLe_inv h2 with hba | ⟨hba, _⟩ <;> omega
    · rcases bytesLe_inv h2 with hba | ⟨hba, hrec2⟩
      · omega
      · rw [hab, bytesLe_antisymm as bs hrec1 hrec2]

instance : IsTotal Bytes bLE := ⟨bytesLe_total⟩

instance : IsTrans Bytes bLE := ⟨bytesLe_trans⟩

instance : IsAntisymm Bytes bLE := ⟨bytesLe_antisymm⟩

/-- C10: `Triangle::hash` is invariant under any permutation of the three
vertices (owner and parent id held fixed): the id is the SHA-256 of the
*sorted* vertex digests, and sorting a permuted list of digests yields
the same sorted list. -/
theorem C10_hash_vertex_permutation_invariant (t t' : Triangle)
    (hperm : [t.a, t.b, t.c].Perm [t'.a, t'.b, t'.c])
    (_howner : t.owner = t'.owner)
    (_hparent : t.parent_hash = t'.parent_hash) :
    t.hash = t'.hash := by
  unfold Triangle.hash
  have hp2 : [t.a.hash, t.b.hash, t.c.hash].Perm
      [t'.a.hash, t'.b.hash, t'.c.hash] := hperm.map Point.hash
  rw [List.eq_of_perm_of_sorted
    (((List.perm_insertionSort bLE _).trans hp2).trans
      (List.perm_insertionSort bLE _).symm)
    (List.sorted_insertionSort bLE _) (List.sorted_insertionSort bLE _)]

/-- The genesis triangle with its vertices rotated. -/
def c10rot : Triangle :=
  ⟨genesis_triangle.b, genesis_triangle.c, genesis_triangle.a, none,
    genesisOwner⟩

theorem C10_witness :
    ([genesis_triangle.a, genesis_triangle.b, genesis_triangle.c].Perm
       [c10rot.a, c10rot.b, c10rot.c] ∧
     genesis_triangle.owner = c10rot.owner ∧
     genesis_triangle.parent_hash = c10rot.parent_hash) ∧
    genesis_triangle.hash = c10rot.hash :=
  ⟨⟨by decide, rfl, rfl⟩,
   C10_hash_vertex_permutation_invariant genesis_triangle c10rot (by decide)
     rfl rfl⟩

end Siertri
